import Mathlib

/-!
The ELF parser `elf.New` of goelftools.

A shallow embedding of `src/elf/elf.go` (with the constants of
`src/elf/constants.go`) and theorems about it.

Conventions of the embedding.

* A Go `byte` is `Fin 256`; a Go unsigned integer of width `w` is a `Nat`, and
  every addition that the source performs on `uint64` is written `% 2 ^ 64`.
* A Go `[]byte` is a window on a backing array: `raw` holds the `len(raw)`
  visible bytes and `spare` the bytes of the backing array between `len(raw)`
  and `cap(raw)`.  Indexing `raw[i]` is checked against `len(raw)`; a slice
  expression `raw[lo:hi]` with an explicit upper bound is checked against
  `cap(raw)` (Go language specification, "Slice expressions").
  `len(raw)` is a Go `int`, so `uint64(len(raw))` is `raw.length` itself.
* A call that can return a Go `error` or stop with a run-time panic yields a
  `Result`: `ok`, `error` (the function returned `nil, err`) or `panic`
  (index or slice bounds out of range).
* `encoding/binary` is modelled after its implementation: `binary.Read` first
  reads the encoded size of the destination with `io.ReadFull`, then a
  `decoder` walks the destination field by field, advancing an offset.
-/

namespace Elf

/-! ## Constants (`src/elf/constants.go`) -/

abbrev Byte := Fin 256

/-- The string constant `ELF_MAGIC = "\x7FELF"`. -/
def ELF_MAGIC : List Byte := [0x7F, 0x45, 0x4C, 0x46]

def MAGIC_SIZE : Nat := 4
def EI_CLASS : Nat := 4
def EI_DATA : Nat := 5

def SHT_NULL : Nat := 0
def SHT_NOBITS : Nat := 8

def SHF_ALLOC : Nat := 0x2
def SHF_EXECINSTR : Nat := 0x4

/-! ## Results, errors and panics -/

/-- The two errors `io.ReadFull` can return on a `bytes.Reader`. -/
inductive IOErr
  | EOF
  | ErrUnexpectedEOF
  deriving DecidableEq

/-- The `xerrors.Errorf` sites of `New`, in source order. -/
inductive Err
  /-- Message "insufficient elf format size: %d" (line 113). -/
  | insufficientSize (len : Nat)
  /-- Message "invalid magic number: %s" (line 117). -/
  | invalidMagic (magic : List Byte)
  /-- Message "invalid endianness: %d" (line 123). -/
  | invalidEndianness (b : Byte)
  /-- Message "invalid elf class: %d" (line 131). -/
  | invalidClass (b : Byte)
  /-- Message "failed to read elf header: %w" (lines 140, 146). -/
  | readElfHeader (cause : IOErr)
  /-- Message "invalid section header offset: %d" (line 160). -/
  | invalidSectionHeaderOffset (shoff : Nat)
  /-- Message "failed to read section header: %w" (lines 169, 178). -/
  | readSectionHeader (cause : IOErr)
  /-- Message "invalid section string index: %d" (line 187). -/
  | invalidSectionStringIndex (index : Nat)
  /-- Message "invalid program header offset: %d" (line 209). -/
  | invalidProgramHeaderOffset (phoff : Nat)
  /-- Message "failed to read program header: %w" (lines 218, 227). -/
  | readProgramHeader (cause : IOErr)
  deriving DecidableEq

/-- Go run-time panics of indexing and slicing. -/
inductive Panic
  /-- Panic "index out of range [index] with length len". -/
  | indexOutOfRange (index len : Nat)
  /-- Panic "slice bounds out of range": `lo > hi` or `hi > cap`. -/
  | sliceBoundsOutOfRange (lo hi cap : Nat)
  deriving DecidableEq

/-- Outcome of a Go call: a value, a returned `error`, or a panic. -/
inductive Result (α : Type)
  | ok (a : α)
  | error (e : Err)
  | panic (p : Panic)
  deriving DecidableEq

/-- Sequencing: an error or a panic of the first step ends the call. -/
def Result.bind {α β : Type} (x : Result α) (f : α → Result β) : Result β :=
  match x with
  | .ok a => f a
  | .error e => .error e
  | .panic p => .panic p

/-- The index expression `raw[i]`, checked against `len(raw)`. -/
def index (raw : List Byte) (i : Nat) : Result Byte :=
  match raw[i]? with
  | some b => .ok b
  | none => .panic (.indexOutOfRange i raw.length)

/-- The slice expression `raw[lo:hi]`: in range iff `lo ≤ hi ≤ cap(raw)`; the
result is read from the backing array `raw ++ spare`. -/
def slice (raw spare : List Byte) (lo hi : Nat) : Result (List Byte) :=
  if lo ≤ hi ∧ hi ≤ raw.length + spare.length then
    .ok (((raw ++ spare).drop lo).take (hi - lo))
  else .panic (.sliceBoundsOutOfRange lo hi (raw.length + spare.length))

/-! ## `encoding/binary` -/

/-- The values `binary.LittleEndian` and `binary.BigEndian` of `binary.ByteOrder`. -/
inductive ByteOrder
  | LittleEndian
  | BigEndian
  deriving DecidableEq

/-- The method `ByteOrder.Uint16(b)`: the first two bytes of `b`.  (Go panics on a
shorter `b`; the decoder never passes one, and the model yields 0 there.) -/
def ByteOrder.Uint16 : ByteOrder → List Byte → Nat
  | .LittleEndian, b0 :: b1 :: _ => b0.val + b1.val * 2 ^ 8
  | .BigEndian, b0 :: b1 :: _ => b1.val + b0.val * 2 ^ 8
  | _, _ => 0

/-- The method `ByteOrder.Uint32(b)`: the first four bytes of `b`. -/
def ByteOrder.Uint32 : ByteOrder → List Byte → Nat
  | .LittleEndian, b0 :: b1 :: b2 :: b3 :: _ =>
      b0.val + b1.val * 2 ^ 8 + b2.val * 2 ^ 16 + b3.val * 2 ^ 24
  | .BigEndian, b0 :: b1 :: b2 :: b3 :: _ =>
      b3.val + b2.val * 2 ^ 8 + b1.val * 2 ^ 16 + b0.val * 2 ^ 24
  | _, _ => 0

/-- The method `ByteOrder.Uint64(b)`: the first eight bytes of `b`. -/
def ByteOrder.Uint64 : ByteOrder → List Byte → Nat
  | .LittleEndian, b0 :: b1 :: b2 :: b3 :: b4 :: b5 :: b6 :: b7 :: _ =>
      b0.val + b1.val * 2 ^ 8 + b2.val * 2 ^ 16 + b3.val * 2 ^ 24
        + b4.val * 2 ^ 32 + b5.val * 2 ^ 40 + b6.val * 2 ^ 48 + b7.val * 2 ^ 56
  | .BigEndian, b0 :: b1 :: b2 :: b3 :: b4 :: b5 :: b6 :: b7 :: _ =>
      b7.val + b6.val * 2 ^ 8 + b5.val * 2 ^ 16 + b4.val * 2 ^ 24
        + b3.val * 2 ^ 32 + b2.val * 2 ^ 40 + b1.val * 2 ^ 48 + b0.val * 2 ^ 56
  | _, _ => 0

/-- The function `io.ReadFull(r, buf)` on a `bytes.Reader` holding `r`, with
`len(buf) = n`: all `n` bytes, or `EOF` when nothing could be read, or
`ErrUnexpectedEOF` when the reader ran out part-way. -/
def readFull (r : List Byte) (n : Nat) : Except IOErr (List Byte) :=
  if n ≤ r.length then .ok (r.take n)
  else if r.length = 0 then .error .EOF
  else .error .ErrUnexpectedEOF

/-- The `decoder` of `encoding/binary`: byte order, buffer and read offset. -/
structure decoder where
  order : ByteOrder
  buf : List Byte
  offset : Nat

/-- A byte array `[n]byte`: `n` calls of `d.uint8()`. -/
def decoder.bytes (d : decoder) (n : Nat) : List Byte × decoder :=
  ((d.buf.drop d.offset).take n, { d with offset := d.offset + n })

/-- The method `d.uint16()`: decodes `d.buf[d.offset:d.offset+2]`, advances by 2. -/
def decoder.uint16 (d : decoder) : Nat × decoder :=
  (d.order.Uint16 (d.buf.drop d.offset), { d with offset := d.offset + 2 })

/-- The method `d.uint32()`: decodes `d.buf[d.offset:d.offset+4]`, advances by 4. -/
def decoder.uint32 (d : decoder) : Nat × decoder :=
  (d.order.Uint32 (d.buf.drop d.offset), { d with offset := d.offset + 4 })

/-- The method `d.uint64()`: decodes `d.buf[d.offset:d.offset+8]`, advances by 8. -/
def decoder.uint64 (d : decoder) : Nat × decoder :=
  (d.order.Uint64 (d.buf.drop d.offset), { d with offset := d.offset + 8 })

/-! ## Data model (`src/elf/elf.go`, lines 10-109) -/

/-- The struct `ELFHeader` (its field `Type` is written `Type_`); the `uint64`
fields hold the widened values of a 32-bit file. -/
structure ELFHeader where
  Ident : List Byte
  Type_ : Nat
  Machine : Nat
  Version : Nat
  Entry : Nat
  Phoff : Nat
  Shoff : Nat
  Flags : Nat
  Ehsize : Nat
  Phentsize : Nat
  Phnum : Nat
  Shentsize : Nat
  Shnum : Nat
  Shstrndx : Nat
  deriving DecidableEq

/-- The struct `elfHeader32`: the on-disk header of a 32-bit file. -/
structure elfHeader32 where
  Ident : List Byte
  Type_ : Nat
  Machine : Nat
  Version : Nat
  Entry : Nat
  Phoff : Nat
  Shoff : Nat
  Flags : Nat
  Ehsize : Nat
  Phentsize : Nat
  Phnum : Nat
  Shentsize : Nat
  Shnum : Nat
  Shstrndx : Nat
  deriving DecidableEq

/-- The struct `SectionHeader`. -/
structure SectionHeader where
  Name : Nat
  Type_ : Nat
  Flags : Nat
  Addr : Nat
  Offset : Nat
  Size : Nat
  Link : Nat
  Info : Nat
  Addralign : Nat
  EntSize : Nat
  deriving DecidableEq

/-- The struct `sectionHeader32`: ten `uint32` fields. -/
structure sectionHeader32 where
  Name : Nat
  Type_ : Nat
  Flags : Nat
  Addr : Nat
  Offset : Nat
  Size : Nat
  Link : Nat
  Info : Nat
  Addralign : Nat
  Entsize : Nat
  deriving DecidableEq

/-- The struct `Section`: header, resolved name (a Go string, as bytes) and
content view. -/
structure Section where
  Header : SectionHeader
  Name : List Byte
  Raw : List Byte
  deriving DecidableEq

/-- The struct `ProgramHeader`. -/
structure ProgramHeader where
  Type_ : Nat
  Flags : Nat
  Offset : Nat
  Vaddr : Nat
  Paddr : Nat
  Filesz : Nat
  Memsz : Nat
  Align : Nat
  deriving DecidableEq

/-- The struct `programHeader32`: eight `uint32` fields, in the order of the
declaration at lines 95-104. -/
structure programHeader32 where
  Type_ : Nat
  Flags : Nat
  Offset : Nat
  Vaddr : Nat
  Paddr : Nat
  Filesz : Nat
  Memsz : Nat
  Align : Nat
  deriving DecidableEq

/-- The struct `Segment`. -/
structure Segment where
  Header : ProgramHeader
  Raw : List Byte
  deriving DecidableEq

/-- The struct `ELFFile`. -/
structure ELFFile where
  Header : ELFHeader
  Sections : List Section
  Segments : List Segment
  Endianness : ByteOrder
  Raw : List Byte
  deriving DecidableEq

/-! ## Encoded sizes (`binary.Size`: the sum of the field sizes, no padding) -/

def ELFHeader.size : Nat := 16 + 2 + 2 + 4 + 8 + 8 + 8 + 4 + 2 + 2 + 2 + 2 + 2 + 2
def elfHeader32.size : Nat := 16 + 2 + 2 + 4 + 4 + 4 + 4 + 4 + 2 + 2 + 2 + 2 + 2 + 2
def SectionHeader.size : Nat := 4 + 4 + 8 + 8 + 8 + 8 + 4 + 4 + 8 + 8
def sectionHeader32.size : Nat := 4 + 4 + 4 + 4 + 4 + 4 + 4 + 4 + 4 + 4
def ProgramHeader.size : Nat := 4 + 4 + 8 + 8 + 8 + 8 + 8 + 8
def programHeader32.size : Nat := 4 + 4 + 4 + 4 + 4 + 4 + 4 + 4

/-! ## Field-by-field decoding (`decoder.value` on each struct type) -/

/-- Decoding of an `ELFHeader` value, fields in declaration order. -/
def decoder.ELFHeader (d : decoder) : ELFHeader × decoder :=
  let (ident, d) := d.bytes 16
  let (type, d) := d.uint16
  let (machine, d) := d.uint16
  let (version, d) := d.uint32
  let (entry, d) := d.uint64
  let (phoff, d) := d.uint64
  let (shoff, d) := d.uint64
  let (flags, d) := d.uint32
  let (ehsize, d) := d.uint16
  let (phentsize, d) := d.uint16
  let (phnum, d) := d.uint16
  let (shentsize, d) := d.uint16
  let (shnum, d) := d.uint16
  let (shstrndx, d) := d.uint16
  ({ Ident := ident, Type_ := type, Machine := machine, Version := version,
     Entry := entry, Phoff := phoff, Shoff := shoff, Flags := flags,
     Ehsize := ehsize, Phentsize := phentsize, Phnum := phnum,
     Shentsize := shentsize, Shnum := shnum, Shstrndx := shstrndx }, d)

/-- Decoding of an `elfHeader32` value, fields in declaration order. -/
def decoder.elfHeader32 (d : decoder) : elfHeader32 × decoder :=
  let (ident, d) := d.bytes 16
  let (type, d) := d.uint16
  let (machine, d) := d.uint16
  let (version, d) := d.uint32
  let (entry, d) := d.uint32
  let (phoff, d) := d.uint32
  let (shoff, d) := d.uint32
  let (flags, d) := d.uint32
  let (ehsize, d) := d.uint16
  let (phentsize, d) := d.uint16
  let (phnum, d) := d.uint16
  let (shentsize, d) := d.uint16
  let (shnum, d) := d.uint16
  let (shstrndx, d) := d.uint16
  ({ Ident := ident, Type_ := type, Machine := machine, Version := version,
     Entry := entry, Phoff := phoff, Shoff := shoff, Flags := flags,
     Ehsize := ehsize, Phentsize := phentsize, Phnum := phnum,
     Shentsize := shentsize, Shnum := shnum, Shstrndx := shstrndx }, d)

/-- Decoding of a `SectionHeader` value, fields in declaration order. -/
def decoder.SectionHeader (d : decoder) : SectionHeader × decoder :=
  let (name, d) := d.uint32
  let (type, d) := d.uint32
  let (flags, d) := d.uint64
  let (addr, d) := d.uint64
  let (offset, d) := d.uint64
  let (size, d) := d.uint64
  let (link, d) := d.uint32
  let (info, d) := d.uint32
  let (addralign, d) := d.uint64
  let (entsize, d) := d.uint64
  ({ Name := name, Type_ := type, Flags := flags, Addr := addr, Offset := offset,
     Size := size, Link := link, Info := info, Addralign := addralign,
     EntSize := entsize }, d)

/-- Decoding of a `sectionHeader32` value, fields in declaration order. -/
def decoder.sectionHeader32 (d : decoder) : sectionHeader32 × decoder :=
  let (name, d) := d.uint32
  let (type, d) := d.uint32
  let (flags, d) := d.uint32
  let (addr, d) := d.uint32
  let (offset, d) := d.uint32
  let (size, d) := d.uint32
  let (link, d) := d.uint32
  let (info, d) := d.uint32
  let (addralign, d) := d.uint32
  let (entsize, d) := d.uint32
  ({ Name := name, Type_ := type, Flags := flags, Addr := addr, Offset := offset,
     Size := size, Link := link, Info := info, Addralign := addralign,
     Entsize := entsize }, d)

/-- Decoding of a `ProgramHeader` value, fields in declaration order. -/
def decoder.ProgramHeader (d : decoder) : ProgramHeader × decoder :=
  let (type, d) := d.uint32
  let (flags, d) := d.uint32
  let (offset, d) := d.uint64
  let (vaddr, d) := d.uint64
  let (paddr, d) := d.uint64
  let (filesz, d) := d.uint64
  let (memsz, d) := d.uint64
  let (align, d) := d.uint64
  ({ Type_ := type, Flags := flags, Offset := offset, Vaddr := vaddr,
     Paddr := paddr, Filesz := filesz, Memsz := memsz, Align := align }, d)

/-- Decoding of a `programHeader32` value, fields in declaration order. -/
def decoder.programHeader32 (d : decoder) : programHeader32 × decoder :=
  let (type, d) := d.uint32
  let (flags, d) := d.uint32
  let (offset, d) := d.uint32
  let (vaddr, d) := d.uint32
  let (paddr, d) := d.uint32
  let (filesz, d) := d.uint32
  let (memsz, d) := d.uint32
  let (align, d) := d.uint32
  ({ Type_ := type, Flags := flags, Offset := offset, Vaddr := vaddr,
     Paddr := paddr, Filesz := filesz, Memsz := memsz, Align := align }, d)

/-- Decoding of a slice of `n` elements: the element decoder, `n` times in a row. -/
def decoder.slice {α : Type} (elem : decoder → α × decoder) : Nat → decoder → List α × decoder
  | 0, d => ([], d)
  | n + 1, d =>
    let (a, d) := elem d
    let (rest, d) := decoder.slice elem n d
    (a :: rest, d)

/-- The call `binary.Read(r, order, data)` for a destination of encoded size
`size`: `io.ReadFull` of `size` bytes, then the decoder from offset 0. -/
def binaryRead {α : Type} (r : List Byte) (order : ByteOrder) (size : Nat)
    (value : decoder → α × decoder) : Except IOErr α :=
  match readFull r size with
  | .error e => .error e
  | .ok buf => .ok (value { order := order, buf := buf, offset := 0 }).1

/-! ## Conversions from the 32-bit records (lines 324-369)

Each `uint64(x)` of a `uint32` value is a zero-extension: the same number. -/

def convertToELFHeader (header32 : elfHeader32) : ELFHeader :=
  { Ident := header32.Ident
    Type_ := header32.Type_
    Machine := header32.Machine
    Version := header32.Version
    Entry := header32.Entry
    Phoff := header32.Phoff
    Shoff := header32.Shoff
    Flags := header32.Flags
    Ehsize := header32.Ehsize
    Phentsize := header32.Phentsize
    Phnum := header32.Phnum
    Shentsize := header32.Shentsize
    Shnum := header32.Shnum
    Shstrndx := header32.Shstrndx }

def convertToSectionHeader (header32 : sectionHeader32) : SectionHeader :=
  { Name := header32.Name
    Type_ := header32.Type_
    Flags := header32.Flags
    Addr := header32.Addr
    Offset := header32.Offset
    Size := header32.Size
    Link := header32.Link
    Info := header32.Info
    Addralign := header32.Addralign
    EntSize := header32.Entsize }

def convertToProgramHeader (header32 : programHeader32) : ProgramHeader :=
  { Type_ := header32.Type_
    Flags := header32.Flags
    Offset := header32.Offset
    Vaddr := header32.Vaddr
    Paddr := header32.Paddr
    Filesz := header32.Filesz
    Memsz := header32.Memsz
    Align := header32.Align }

/-! ## `New` (lines 111-243) -/

/-- Lines 120-128: the byte order selected by `raw[EI_DATA]`. -/
def endiannessOf (raw : List Byte) : Result ByteOrder :=
  (index raw EI_DATA).bind fun data =>
    if data ≠ 1 then
      if data ≠ 2 then .error (.invalidEndianness data)
      else .ok .BigEndian
    else .ok .LittleEndian

/-- Lines 134-148: the file header, read from the start of `raw` in the layout
of the class byte `cls = raw[EI_CLASS]`. -/
def readHeader (raw : List Byte) (endianness : ByteOrder) (cls : Byte) : Result ELFHeader :=
  if cls = 1 then
    match binaryRead raw endianness elfHeader32.size decoder.elfHeader32 with
    | .error err => .error (.readElfHeader err)
    | .ok header32 => .ok (convertToELFHeader header32)
  else
    match binaryRead raw endianness ELFHeader.size decoder.ELFHeader with
    | .error err => .error (.readElfHeader err)
    | .ok header => .ok header

/-- Lines 163-180: the `Shnum` section header records, read from `r`, the
reader on `raw[Shoff:]`; the class is taken from `Ident[EI_CLASS]`. -/
def readSectionHeaders (r : List Byte) (endianness : ByteOrder) (header : ELFHeader) :
    Result (List SectionHeader) :=
  if header.Ident[EI_CLASS]? = some 1 then
    match binaryRead r endianness (header.Shnum * sectionHeader32.size)
        (decoder.slice decoder.sectionHeader32 header.Shnum) with
    | .error err => .error (.readSectionHeader err)
    | .ok sh32s => .ok (sh32s.map convertToSectionHeader)
  else
    match binaryRead r endianness (header.Shnum * SectionHeader.size)
        (decoder.slice decoder.SectionHeader header.Shnum) with
    | .error err => .error (.readSectionHeader err)
    | .ok shs => .ok shs

/-- Line 190-192, the loop `for e.Raw[index] != 0 { index++ }`, on the bytes of
`raw` from `index` on (`len` is `len(raw)`): the position of the first zero
byte, or the panic of `e.Raw[index]` once `index` reaches `len(raw)`. -/
def scanName (len : Nat) : List Byte → Nat → Result Nat
  | [], index => .panic (.indexOutOfRange index len)
  | b :: rest, index => if b ≠ 0 then scanName len rest (index + 1) else .ok index

/-- Lines 184-202: the loop over the section headers, from the current one on. -/
def bindSections (raw spare : List Byte) (stroffset : Nat) :
    List SectionHeader → Result (List Section)
  | [] => .ok []
  | sh :: rest =>
    let index := (stroffset + sh.Name) % 2 ^ 64
    if raw.length ≤ index then .error (.invalidSectionStringIndex index)
    else
      (scanName raw.length (raw.drop index) index).bind fun index =>
      (slice raw spare ((stroffset + sh.Name) % 2 ^ 64) index).bind fun n =>
      (slice raw spare sh.Offset ((sh.Offset + sh.Size) % 2 ^ 64)).bind fun sr =>
      (bindSections raw spare stroffset rest).bind fun ss =>
      .ok ({ Header := sh, Name := n, Raw := sr } :: ss)

/-- Line 183: `shs[header.Shstrndx].Offset`, an index expression on `shs`. -/
def stringTableOffset (shs : List SectionHeader) (shstrndx : Nat) : Result Nat :=
  match shs[shstrndx]? with
  | some sh => .ok sh.Offset
  | none => .panic (.indexOutOfRange shstrndx shs.length)

/-- Lines 156-203: the section table. -/
def buildSections (raw spare : List Byte) (endianness : ByteOrder) (header : ELFHeader) :
    Result (List Section) :=
  if header.Shnum = 0 then .ok []
  else if raw.length ≤ header.Shoff then .error (.invalidSectionHeaderOffset header.Shoff)
  else
    (readSectionHeaders (raw.drop header.Shoff) endianness header).bind fun shs =>
    (stringTableOffset shs header.Shstrndx).bind fun stroffset =>
    bindSections raw spare stroffset shs

/-- Lines 212-229: the `Phnum` program header records, read from `r`, the
reader on `raw[Phoff:]`. -/
def readProgramHeaders (r : List Byte) (endianness : ByteOrder) (header : ELFHeader) :
    Result (List ProgramHeader) :=
  if header.Ident[EI_CLASS]? = some 1 then
    match binaryRead r endianness (header.Phnum * programHeader32.size)
        (decoder.slice decoder.programHeader32 header.Phnum) with
    | .error err => .error (.readProgramHeader err)
    | .ok ph32s => .ok (ph32s.map convertToProgramHeader)
  else
    match binaryRead r endianness (header.Phnum * ProgramHeader.size)
        (decoder.slice decoder.ProgramHeader header.Phnum) with
    | .error err => .error (.readProgramHeader err)
    | .ok phs => .ok phs

/-- Lines 232-239: the loop over the program headers, from the current one on. -/
def bindSegments (raw spare : List Byte) : List ProgramHeader → Result (List Segment)
  | [] => .ok []
  | ph :: rest =>
    (slice raw spare ph.Offset ((ph.Offset + ph.Filesz) % 2 ^ 64)).bind fun sgr =>
    (bindSegments raw spare rest).bind fun sgs =>
    .ok ({ Header := ph, Raw := sgr } :: sgs)

/-- Lines 205-240: the segment table. -/
def buildSegments (raw spare : List Byte) (endianness : ByteOrder) (header : ELFHeader) :
    Result (List Segment) :=
  if header.Phnum = 0 then .ok []
  else if header.Phoff ≥ raw.length then .error (.invalidProgramHeaderOffset header.Phoff)
  else
    (readProgramHeaders (raw.drop header.Phoff) endianness header).bind fun phs =>
    bindSegments raw spare phs

/-- The function `New(raw)`; `spare` is the part of the backing array of `raw`
between its length and its capacity. -/
def New (raw spare : List Byte) : Result ELFFile :=
  if raw.length < MAGIC_SIZE then .error (.insufficientSize raw.length)
  else if raw.take MAGIC_SIZE ≠ ELF_MAGIC then .error (.invalidMagic (raw.take MAGIC_SIZE))
  else
    (endiannessOf raw).bind fun endianness =>
    (index raw EI_CLASS).bind fun cls =>
    if cls ≠ 1 ∧ cls ≠ 2 then .error (.invalidClass cls)
    else
      (readHeader raw endianness cls).bind fun header =>
      (buildSections raw spare endianness header).bind fun sections =>
      (buildSegments raw spare endianness header).bind fun segments =>
      .ok { Header := header, Sections := sections, Segments := segments,
            Endianness := endianness, Raw := raw }

/-! ## Query surface (lines 245-322)

A `*Section` or `*Segment` result is an `Option`: `none` is `nil`.  The entries
of `Sections` and `Segments` are the non-nil pointers `New` stores. -/

/-- The method `SectionByName`: the loop of lines 247-251 from the current entry
on, then `return nil`. -/
def ELFFile.SectionByName.loop (name : List Byte) : List Section → Option Section
  | [] => none
  | s :: rest => if s.Name = name then some s else ELFFile.SectionByName.loop name rest

/-- The method `SectionByName` (lines 246-254). -/
def ELFFile.SectionByName (e : ELFFile) (name : List Byte) : Option Section :=
  ELFFile.SectionByName.loop name e.Sections

/-- The method `SectionsByFlag` (lines 257-266): `ss` starts as the nil slice and
every entry with `s.Header.Flags == sf` is appended, in range order. -/
def ELFFile.SectionsByFlag (e : ELFFile) (sf : Nat) : List Section :=
  e.Sections.foldl (fun ss s => if s.Header.Flags = sf then ss ++ [s] else ss) []

/-- The method `SectionsByType` (lines 269-278). -/
def ELFFile.SectionsByType (e : ELFFile) (sht : Nat) : List Section :=
  e.Sections.foldl (fun ss s => if s.Header.Type_ = sht then ss ++ [s] else ss) []

/-- The method `SectionAt` (lines 281-288), for `n` a `uint16`: `uint16(len(ss))`
is the length modulo `2 ^ 16`, and `ss[n]` is an index expression. -/
def ELFFile.SectionAt (e : ELFFile) (n : Nat) : Result (Option Section) :=
  if n > e.Sections.length % 2 ^ 16 then .ok none
  else
    match e.Sections[n]? with
    | some s => .ok (some s)
    | none => .panic (.indexOutOfRange n e.Sections.length)

/-- The method `SegmentsByFlag` (lines 291-300). -/
def ELFFile.SegmentsByFlag (e : ELFFile) (pf : Nat) : List Segment :=
  e.Segments.foldl (fun sgs sg => if sg.Header.Flags = pf then sgs ++ [sg] else sgs) []

/-- The method `SegmentsByType` (lines 303-312). -/
def ELFFile.SegmentsByType (e : ELFFile) (pt : Nat) : List Segment :=
  e.Segments.foldl (fun sgs sg => if sg.Header.Type_ = pt then sgs ++ [sg] else sgs) []

/-- The method `SegmentAt` (lines 315-322), for `n` a `uint16`. -/
def ELFFile.SegmentAt (e : ELFFile) (n : Nat) : Result (Option Segment) :=
  if n > e.Segments.length % 2 ^ 16 then .ok none
  else
    match e.Segments[n]? with
    | some sg => .ok (some sg)
    | none => .panic (.indexOutOfRange n e.Segments.length)

/-! ## Specification-level definitions

The on-disk layouts as the specification words them: every field is "the unsigned
integer stored at a fixed position", independently of how the decoder walks the
record. -/

/-- The unsigned integer stored in the `width` bytes of `raw` from position
`pos`, read in byte order `order`. -/
def uintAt (order : ByteOrder) (raw : List Byte) (pos width : Nat) : Nat :=
  match order with
  | .LittleEndian => ((raw.drop pos).take width).foldr (fun b acc => b.val + 256 * acc) 0
  | .BigEndian => ((raw.drop pos).take width).foldl (fun acc b => 256 * acc + b.val) 0

/-- The data-encoding byte of a byte order: 1 for little-endian, 2 for big-endian. -/
def ByteOrder.code : ByteOrder → Byte
  | .LittleEndian => 1
  | .BigEndian => 2

/-- Valid identification bytes: the magic `7F 45 4C 46`, a class byte `cls` that
is 1 or 2, and the data-encoding byte of `order`. -/
def ValidIdent (raw : List Byte) (cls : Byte) (order : ByteOrder) : Prop :=
  raw.take 4 = [0x7F, 0x45, 0x4C, 0x46] ∧ raw[4]? = some cls ∧ (cls = 1 ∨ cls = 2) ∧
    raw[5]? = some order.code

/-- The size of the file-header record of a class: 52 bytes for class 1, 64 for class 2. -/
def headerSize (cls : Byte) : Nat := if cls = 1 then 52 else 64

/-- The class-2 file header of `raw`: `Ident` is the first 16 bytes, then Type@16,
Machine@18 (2 bytes each), Version@20 (4), Entry@24, Phoff@32, Shoff@40 (8 each),
Flags@48 (4), Ehsize@52, Phentsize@54, Phnum@56, Shentsize@58, Shnum@60,
Shstrndx@62 (2 each). -/
def headerAt64 (order : ByteOrder) (raw : List Byte) : ELFHeader :=
  { Ident := raw.take 16
    Type_ := uintAt order raw 16 2
    Machine := uintAt order raw 18 2
    Version := uintAt order raw 20 4
    Entry := uintAt order raw 24 8
    Phoff := uintAt order raw 32 8
    Shoff := uintAt order raw 40 8
    Flags := uintAt order raw 48 4
    Ehsize := uintAt order raw 52 2
    Phentsize := uintAt order raw 54 2
    Phnum := uintAt order raw 56 2
    Shentsize := uintAt order raw 58 2
    Shnum := uintAt order raw 60 2
    Shstrndx := uintAt order raw 62 2 }

/-- The class-1 file header of `raw`: `Ident` is the first 16 bytes, then Type@16,
Machine@18 (2 bytes each), Version@20, Entry@24, Phoff@28, Shoff@32, Flags@36
(4 each), Ehsize@40, Phentsize@42, Phnum@44, Shentsize@46, Shnum@48, Shstrndx@50
(2 each). -/
def headerAt32 (order : ByteOrder) (raw : List Byte) : ELFHeader :=
  { Ident := raw.take 16
    Type_ := uintAt order raw 16 2
    Machine := uintAt order raw 18 2
    Version := uintAt order raw 20 4
    Entry := uintAt order raw 24 4
    Phoff := uintAt order raw 28 4
    Shoff := uintAt order raw 32 4
    Flags := uintAt order raw 36 4
    Ehsize := uintAt order raw 40 2
    Phentsize := uintAt order raw 42 2
    Phnum := uintAt order raw 44 2
    Shentsize := uintAt order raw 46 2
    Shnum := uintAt order raw 48 2
    Shstrndx := uintAt order raw 50 2 }

/-- The file header of a buffer of class `cls`, in the layout of that class. -/
def headerAt (cls : Byte) (order : ByteOrder) (raw : List Byte) : ELFHeader :=
  if cls = 1 then headerAt32 order raw else headerAt64 order raw

/-- The class-2 section header record at position `p`: Name@0, Type@4 (4 bytes
each), Flags@8, Addr@16, Offset@24, Size@32 (8 each), Link@40, Info@44 (4 each),
Addralign@48, EntSize@56 (8 each). -/
def sectionHeaderAt64 (order : ByteOrder) (raw : List Byte) (p : Nat) : SectionHeader :=
  { Name := uintAt order raw p 4
    Type_ := uintAt order raw (p + 4) 4
    Flags := uintAt order raw (p + 8) 8
    Addr := uintAt order raw (p + 16) 8
    Offset := uintAt order raw (p + 24) 8
    Size := uintAt order raw (p + 32) 8
    Link := uintAt order raw (p + 40) 4
    Info := uintAt order raw (p + 44) 4
    Addralign := uintAt order raw (p + 48) 8
    EntSize := uintAt order raw (p + 56) 8 }

/-- The class-1 section header record at position `p`: ten consecutive 4-byte
fields, in the order Name, Type, Flags, Addr, Offset, Size, Link, Info,
Addralign, EntSize. -/
def sectionHeaderAt32 (order : ByteOrder) (raw : List Byte) (p : Nat) : SectionHeader :=
  { Name := uintAt order raw p 4
    Type_ := uintAt order raw (p + 4) 4
    Flags := uintAt order raw (p + 8) 4
    Addr := uintAt order raw (p + 12) 4
    Offset := uintAt order raw (p + 16) 4
    Size := uintAt order raw (p + 20) 4
    Link := uintAt order raw (p + 24) 4
    Info := uintAt order raw (p + 28) 4
    Addralign := uintAt order raw (p + 32) 4
    EntSize := uintAt order raw (p + 36) 4 }

/-- The class-2 program header record at position `p`: Type@0, Flags@4 (4 bytes
each), Offset@8, Vaddr@16, Paddr@24, Filesz@32, Memsz@40, Align@48 (8 each). -/
def programHeaderAt64 (order : ByteOrder) (raw : List Byte) (p : Nat) : ProgramHeader :=
  { Type_ := uintAt order raw p 4
    Flags := uintAt order raw (p + 4) 4
    Offset := uintAt order raw (p + 8) 8
    Vaddr := uintAt order raw (p + 16) 8
    Paddr := uintAt order raw (p + 24) 8
    Filesz := uintAt order raw (p + 32) 8
    Memsz := uintAt order raw (p + 40) 8
    Align := uintAt order raw (p + 48) 8 }

/-- The class-1 program header record at position `p` as the ELF format lays it
out: Type from bytes 0-3, Offset from 4-7, Vaddr from 8-11, Paddr from 12-15,
Filesz from 16-19, Memsz from 20-23, Flags from 24-27, Align from 28-31. -/
def programHeaderAt32 (order : ByteOrder) (raw : List Byte) (p : Nat) : ProgramHeader :=
  { Type_ := uintAt order raw p 4
    Offset := uintAt order raw (p + 4) 4
    Vaddr := uintAt order raw (p + 8) 4
    Paddr := uintAt order raw (p + 12) 4
    Filesz := uintAt order raw (p + 16) 4
    Memsz := uintAt order raw (p + 20) 4
    Flags := uintAt order raw (p + 24) 4
    Align := uintAt order raw (p + 28) 4 }

/-! ## Sample buffers -/

/-- A 64-bit little-endian file of 259 bytes: header, one program header at 64,
two section headers at 120 (the null section and `.shstrtab`), string table at 248. -/
def sample64 : List Byte :=
  [0x7F, 0x45, 0x4C, 0x46, 0x02, 0x01, 0x01, 0x00, 0x00, 0x00, 0x00, 0x00, 0x00, 0x00, 0x00, 0x00,
   0x02, 0x00, 0x3E, 0x00, 0x01, 0x00, 0x00, 0x00, 0x00, 0x10, 0x40, 0x00, 0x00, 0x00, 0x00, 0x00,
   0x40, 0x00, 0x00, 0x00, 0x00, 0x00, 0x00, 0x00, 0x78, 0x00, 0x00, 0x00, 0x00, 0x00, 0x00, 0x00,
   0x00, 0x00, 0x00, 0x00, 0x40, 0x00, 0x38, 0x00, 0x01, 0x00, 0x40, 0x00, 0x02, 0x00, 0x01, 0x00,
   0x01, 0x00, 0x00, 0x00, 0x05, 0x00, 0x00, 0x00, 0x00, 0x00, 0x00, 0x00, 0x00, 0x00, 0x00, 0x00,
   0x00, 0x00, 0x40, 0x00, 0x00, 0x00, 0x00, 0x00, 0x00, 0x00, 0x40, 0x00, 0x00, 0x00, 0x00, 0x00,
   0x40, 0x00, 0x00, 0x00, 0x00, 0x00, 0x00, 0x00, 0x40, 0x00, 0x00, 0x00, 0x00, 0x00, 0x00, 0x00,
   0x00, 0x10, 0x00, 0x00, 0x00, 0x00, 0x00, 0x00, 0x00, 0x00, 0x00, 0x00, 0x00, 0x00, 0x00, 0x00,
   0x00, 0x00, 0x00, 0x00, 0x00, 0x00, 0x00, 0x00, 0x00, 0x00, 0x00, 0x00, 0x00, 0x00, 0x00, 0x00,
   0x00, 0x00, 0x00, 0x00, 0x00, 0x00, 0x00, 0x00, 0x00, 0x00, 0x00, 0x00, 0x00, 0x00, 0x00, 0x00,
   0x00, 0x00, 0x00, 0x00, 0x00, 0x00, 0x00, 0x00, 0x00, 0x00, 0x00, 0x00, 0x00, 0x00, 0x00, 0x00,
   0x00, 0x00, 0x00, 0x00, 0x00, 0x00, 0x00, 0x00, 0x01, 0x00, 0x00, 0x00, 0x03, 0x00, 0x00, 0x00,
   0x00, 0x00, 0x00, 0x00, 0x00, 0x00, 0x00, 0x00, 0x00, 0x00, 0x00, 0x00, 0x00, 0x00, 0x00, 0x00,
   0xF8, 0x00, 0x00, 0x00, 0x00, 0x00, 0x00, 0x00, 0x0B, 0x00, 0x00, 0x00, 0x00, 0x00, 0x00, 0x00,
   0x00, 0x00, 0x00, 0x00, 0x00, 0x00, 0x00, 0x00, 0x01, 0x00, 0x00, 0x00, 0x00, 0x00, 0x00, 0x00,
   0x00, 0x00, 0x00, 0x00, 0x00, 0x00, 0x00, 0x00, 0x00, 0x2E, 0x73, 0x68, 0x73, 0x74, 0x72, 0x74,
   0x61, 0x62, 0x00]

/-- A 32-bit big-endian file of 143 bytes: header, two section headers at 52
(the null section and `.shstrtab`), string table at 132, no program header. -/
def sample32 : List Byte :=
  [0x7F, 0x45, 0x4C, 0x46, 0x01, 0x02, 0x01, 0x00, 0x00, 0x00, 0x00, 0x00, 0x00, 0x00, 0x00, 0x00,
   0x00, 0x02, 0x00, 0x08, 0x00, 0x00, 0x00, 0x01, 0x00, 0x40, 0x00, 0x00, 0x00, 0x00, 0x00, 0x00,
   0x00, 0x00, 0x00, 0x34, 0x00, 0x00, 0x00, 0x00, 0x00, 0x34, 0x00, 0x20, 0x00, 0x00, 0x00, 0x28,
   0x00, 0x02, 0x00, 0x01, 0x00, 0x00, 0x00, 0x00, 0x00, 0x00, 0x00, 0x00, 0x00, 0x00, 0x00, 0x00,
   0x00, 0x00, 0x00, 0x00, 0x00, 0x00, 0x00, 0x00, 0x00, 0x00, 0x00, 0x00, 0x00, 0x00, 0x00, 0x00,
   0x00, 0x00, 0x00, 0x00, 0x00, 0x00, 0x00, 0x00, 0x00, 0x00, 0x00, 0x00, 0x00, 0x00, 0x00, 0x01,
   0x00, 0x00, 0x00, 0x03, 0x00, 0x00, 0x00, 0x00, 0x00, 0x00, 0x00, 0x00, 0x00, 0x00, 0x00, 0x84,
   0x00, 0x00, 0x00, 0x0B, 0x00, 0x00, 0x00, 0x00, 0x00, 0x00, 0x00, 0x00, 0x00, 0x00, 0x00, 0x01,
   0x00, 0x00, 0x00, 0x00, 0x00, 0x2E, 0x73, 0x68, 0x73, 0x74, 0x72, 0x74, 0x61, 0x62, 0x00]

/-- A 64-bit little-endian header alone, with `Shnum = 0`, `Phnum = 0`,
`Phoff = 2^64 - 1`, `Shoff = 0x123456789A` and `Shstrndx = 7`. -/
def sampleBare : List Byte :=
  [0x7F, 0x45, 0x4C, 0x46, 0x02, 0x01, 0x01, 0x00, 0x00, 0x00, 0x00, 0x00, 0x00, 0x00, 0x00, 0x00,
   0x03, 0x00, 0xB7, 0x00, 0x01, 0x00, 0x00, 0x00, 0x00, 0x00, 0x00, 0x00, 0x00, 0x00, 0x00, 0x00,
   0xFF, 0xFF, 0xFF, 0xFF, 0xFF, 0xFF, 0xFF, 0xFF, 0x9A, 0x78, 0x56, 0x34, 0x12, 0x00, 0x00, 0x00,
   0x00, 0x00, 0x00, 0x00, 0x40, 0x00, 0x38, 0x00, 0x00, 0x00, 0x40, 0x00, 0x00, 0x00, 0x07, 0x00]

/-- A 64-bit little-endian file of 120 bytes: header and one program header at 64
whose `Offset` is 0 and whose `Filesz` is 0x1000. -/
def sampleSegmentOverrun : List Byte :=
  [0x7F, 0x45, 0x4C, 0x46, 0x02, 0x01, 0x01, 0x00, 0x00, 0x00, 0x00, 0x00, 0x00, 0x00, 0x00, 0x00,
   0x02, 0x00, 0x3E, 0x00, 0x01, 0x00, 0x00, 0x00, 0x00, 0x00, 0x00, 0x00, 0x00, 0x00, 0x00, 0x00,
   0x40, 0x00, 0x00, 0x00, 0x00, 0x00, 0x00, 0x00, 0x00, 0x00, 0x00, 0x00, 0x00, 0x00, 0x00, 0x00,
   0x00, 0x00, 0x00, 0x00, 0x40, 0x00, 0x38, 0x00, 0x01, 0x00, 0x40, 0x00, 0x00, 0x00, 0x00, 0x00,
   0x01, 0x00, 0x00, 0x00, 0x05, 0x00, 0x00, 0x00, 0x00, 0x00, 0x00, 0x00, 0x00, 0x00, 0x00, 0x00,
   0x00, 0x00, 0x00, 0x00, 0x00, 0x00, 0x00, 0x00, 0x00, 0x00, 0x00, 0x00, 0x00, 0x00, 0x00, 0x00,
   0x00, 0x10, 0x00, 0x00, 0x00, 0x00, 0x00, 0x00, 0x00, 0x10, 0x00, 0x00, 0x00, 0x00, 0x00, 0x00,
   0x00, 0x10, 0x00, 0x00, 0x00, 0x00, 0x00, 0x00]

/-- A 32-bit little-endian file of 84 bytes: header and one program header at 52,
in the field order of the ELF format: `p_type = 1`, `p_offset = 0`, `p_vaddr = 0x10`,
`p_paddr = 0x10`, `p_filesz = 0x20`, `p_memsz = 0x30`, `p_flags = 5`, `p_align = 4`. -/
def sampleSegment32 : List Byte :=
  [0x7F, 0x45, 0x4C, 0x46, 0x01, 0x01, 0x01, 0x00, 0x00, 0x00, 0x00, 0x00, 0x00, 0x00, 0x00, 0x00,
   0x02, 0x00, 0x03, 0x00, 0x01, 0x00, 0x00, 0x00, 0x00, 0x00, 0x00, 0x00, 0x34, 0x00, 0x00, 0x00,
   0x00, 0x00, 0x00, 0x00, 0x00, 0x00, 0x00, 0x00, 0x34, 0x00, 0x20, 0x00, 0x01, 0x00, 0x28, 0x00,
   0x00, 0x00, 0x00, 0x00, 0x01, 0x00, 0x00, 0x00, 0x00, 0x00, 0x00, 0x00, 0x10, 0x00, 0x00, 0x00,
   0x10, 0x00, 0x00, 0x00, 0x20, 0x00, 0x00, 0x00, 0x30, 0x00, 0x00, 0x00, 0x05, 0x00, 0x00, 0x00,
   0x04, 0x00, 0x00, 0x00]

/-- A 64-bit little-endian file of 100 bytes with `Shnum = 1` and `Shoff = 64`:
the 64-byte section header record would end at 128. -/
def sampleSectionTableCut : List Byte :=
  [0x7F, 0x45, 0x4C, 0x46, 0x02, 0x01, 0x01, 0x00, 0x00, 0x00, 0x00, 0x00, 0x00, 0x00, 0x00, 0x00,
   0x02, 0x00, 0x3E, 0x00, 0x01, 0x00, 0x00, 0x00, 0x00, 0x00, 0x00, 0x00, 0x00, 0x00, 0x00, 0x00,
   0x00, 0x00, 0x00, 0x00, 0x00, 0x00, 0x00, 0x00, 0x40, 0x00, 0x00, 0x00, 0x00, 0x00, 0x00, 0x00,
   0x00, 0x00, 0x00, 0x00, 0x40, 0x00, 0x38, 0x00, 0x00, 0x00, 0x40, 0x00, 0x01, 0x00, 0x00, 0x00,
   0x00, 0x00, 0x00, 0x00, 0x00, 0x00, 0x00, 0x00, 0x00, 0x00, 0x00, 0x00, 0x00, 0x00, 0x00, 0x00,
   0x00, 0x00, 0x00, 0x00, 0x00, 0x00, 0x00, 0x00, 0x00, 0x00, 0x00, 0x00, 0x00, 0x00, 0x00, 0x00,
   0x00, 0x00, 0x00, 0x00]

/-- A 64-bit little-endian file of 100 bytes with `Shnum = 0`, `Phnum = 1` and
`Phoff = 64`: the 56-byte program header record would end at 120. -/
def sampleSegmentTableCut : List Byte :=
  [0x7F, 0x45, 0x4C, 0x46, 0x02, 0x01, 0x01, 0x00, 0x00, 0x00, 0x00, 0x00, 0x00, 0x00, 0x00, 0x00,
   0x02, 0x00, 0x3E, 0x00, 0x01, 0x00, 0x00, 0x00, 0x00, 0x00, 0x00, 0x00, 0x00, 0x00, 0x00, 0x00,
   0x40, 0x00, 0x00, 0x00, 0x00, 0x00, 0x00, 0x00, 0x00, 0x00, 0x00, 0x00, 0x00, 0x00, 0x00, 0x00,
   0x00, 0x00, 0x00, 0x00, 0x40, 0x00, 0x38, 0x00, 0x01, 0x00, 0x40, 0x00, 0x00, 0x00, 0x00, 0x00,
   0x00, 0x00, 0x00, 0x00, 0x00, 0x00, 0x00, 0x00, 0x00, 0x00, 0x00, 0x00, 0x00, 0x00, 0x00, 0x00,
   0x00, 0x00, 0x00, 0x00, 0x00, 0x00, 0x00, 0x00, 0x00, 0x00, 0x00, 0x00, 0x00, 0x00, 0x00, 0x00,
   0x00, 0x00, 0x00, 0x00]

/-- The model of `sample64`. -/
def sample64File : ELFFile :=
  { Header :=
      { Ident := [0x7F, 0x45, 0x4C, 0x46, 2, 1, 1, 0, 0, 0, 0, 0, 0, 0, 0, 0]
        Type_ := 2, Machine := 0x3E, Version := 1, Entry := 0x401000, Phoff := 64, Shoff := 120
        Flags := 0, Ehsize := 64, Phentsize := 56, Phnum := 1, Shentsize := 64, Shnum := 2
        Shstrndx := 1 }
    Sections :=
      [{ Header := { Name := 0, Type_ := 0, Flags := 0, Addr := 0, Offset := 0, Size := 0,
                     Link := 0, Info := 0, Addralign := 0, EntSize := 0 }
         Name := []
         Raw := [] },
       { Header := { Name := 1, Type_ := 3, Flags := 0, Addr := 0, Offset := 248, Size := 11,
                     Link := 0, Info := 0, Addralign := 1, EntSize := 0 }
         Name := [0x2E, 0x73, 0x68, 0x73, 0x74, 0x72, 0x74, 0x61, 0x62]
         Raw := [0, 0x2E, 0x73, 0x68, 0x73, 0x74, 0x72, 0x74, 0x61, 0x62, 0] }]
    Segments :=
      [{ Header := { Type_ := 1, Flags := 5, Offset := 0, Vaddr := 0x400000, Paddr := 0x400000,
                     Filesz := 64, Memsz := 64, Align := 0x1000 }
         Raw := sample64.take 64 }]
    Endianness := .LittleEndian
    Raw := sample64 }

/-- The model of `sample32`. -/
def sample32File : ELFFile :=
  { Header :=
      { Ident := [0x7F, 0x45, 0x4C, 0x46, 1, 2, 1, 0, 0, 0, 0, 0, 0, 0, 0, 0]
        Type_ := 2, Machine := 8, Version := 1, Entry := 0x400000, Phoff := 0, Shoff := 52
        Flags := 0, Ehsize := 52, Phentsize := 32, Phnum := 0, Shentsize := 40, Shnum := 2
        Shstrndx := 1 }
    Sections :=
      [{ Header := { Name := 0, Type_ := 0, Flags := 0, Addr := 0, Offset := 0, Size := 0,
                     Link := 0, Info := 0, Addralign := 0, EntSize := 0 }
         Name := []
         Raw := [] },
       { Header := { Name := 1, Type_ := 3, Flags := 0, Addr := 0, Offset := 132, Size := 11,
                     Link := 0, Info := 0, Addralign := 1, EntSize := 0 }
         Name := [0x2E, 0x73, 0x68, 0x73, 0x74, 0x72, 0x74, 0x61, 0x62]
         Raw := [0, 0x2E, 0x73, 0x68, 0x73, 0x74, 0x72, 0x74, 0x61, 0x62, 0] }]
    Segments := []
    Endianness := .BigEndian
    Raw := sample32 }

/-- The model `New` builds of `sampleSegment32`: its one program header as the
code reads it. -/
def sampleSegment32File : ELFFile :=
  { Header :=
      { Ident := [0x7F, 0x45, 0x4C, 0x46, 1, 1, 1, 0, 0, 0, 0, 0, 0, 0, 0, 0]
        Type_ := 2, Machine := 3, Version := 1, Entry := 0, Phoff := 52, Shoff := 0
        Flags := 0, Ehsize := 52, Phentsize := 32, Phnum := 1, Shentsize := 40, Shnum := 0
        Shstrndx := 0 }
    Sections := []
    Segments :=
      [{ Header := { Type_ := 1, Flags := 0, Offset := 0x10, Vaddr := 0x10, Paddr := 0x20,
                     Filesz := 0x30, Memsz := 5, Align := 4 }
         Raw := (sampleSegment32.drop 0x10).take 0x30 }]
    Endianness := .LittleEndian
    Raw := sampleSegment32 }

/-- A 64-bit little-endian file of 128 bytes with one section header at 64 and
`Shstrndx = 0`: the section has `Name = 1`, `Offset = 2^64 - 1` and `Size = 0`, so that
string table offset plus name is `2^64`. -/
def sampleNameWrap : List Byte :=
  [0x7F, 0x45, 0x4C, 0x46, 0x02, 0x01, 0x01, 0x00, 0x00, 0x00, 0x00, 0x00, 0x00, 0x00, 0x00, 0x00,
   0x01, 0x00, 0x3E, 0x00, 0x01, 0x00, 0x00, 0x00, 0x00, 0x00, 0x00, 0x00, 0x00, 0x00, 0x00, 0x00,
   0x00, 0x00, 0x00, 0x00, 0x00, 0x00, 0x00, 0x00, 0x40, 0x00, 0x00, 0x00, 0x00, 0x00, 0x00, 0x00,
   0x00, 0x00, 0x00, 0x00, 0x40, 0x00, 0x38, 0x00, 0x00, 0x00, 0x40, 0x00, 0x01, 0x00, 0x00, 0x00,
   0x01, 0x00, 0x00, 0x00, 0x03, 0x00, 0x00, 0x00, 0x00, 0x00, 0x00, 0x00, 0x00, 0x00, 0x00, 0x00,
   0x00, 0x00, 0x00, 0x00, 0x00, 0x00, 0x00, 0x00, 0xFF, 0xFF, 0xFF, 0xFF, 0xFF, 0xFF, 0xFF, 0xFF,
   0x00, 0x00, 0x00, 0x00, 0x00, 0x00, 0x00, 0x00, 0x00, 0x00, 0x00, 0x00, 0x00, 0x00, 0x00, 0x00,
   0x01, 0x00, 0x00, 0x00, 0x00, 0x00, 0x00, 0x00, 0x00, 0x00, 0x00, 0x00, 0x00, 0x00, 0x00, 0x00]

/-- A 64-bit little-endian file of 272 bytes: header, three section headers at 64
(the null section, `.bss` of type NOBITS with `Offset = 256` and `Size = 8`, and
`.shstrtab`), string table at 256. -/
def sampleBss : List Byte :=
  [0x7F, 0x45, 0x4C, 0x46, 0x02, 0x01, 0x01, 0x00, 0x00, 0x00, 0x00, 0x00, 0x00, 0x00, 0x00, 0x00,
   0x01, 0x00, 0x3E, 0x00, 0x01, 0x00, 0x00, 0x00, 0x00, 0x00, 0x00, 0x00, 0x00, 0x00, 0x00, 0x00,
   0x00, 0x00, 0x00, 0x00, 0x00, 0x00, 0x00, 0x00, 0x40, 0x00, 0x00, 0x00, 0x00, 0x00, 0x00, 0x00,
   0x00, 0x00, 0x00, 0x00, 0x40, 0x00, 0x38, 0x00, 0x00, 0x00, 0x40, 0x00, 0x03, 0x00, 0x02, 0x00,
   0x00, 0x00, 0x00, 0x00, 0x00, 0x00, 0x00, 0x00, 0x00, 0x00, 0x00, 0x00, 0x00, 0x00, 0x00, 0x00,
   0x00, 0x00, 0x00, 0x00, 0x00, 0x00, 0x00, 0x00, 0x00, 0x00, 0x00, 0x00, 0x00, 0x00, 0x00, 0x00,
   0x00, 0x00, 0x00, 0x00, 0x00, 0x00, 0x00, 0x00, 0x00, 0x00, 0x00, 0x00, 0x00, 0x00, 0x00, 0x00,
   0x00, 0x00, 0x00, 0x00, 0x00, 0x00, 0x00, 0x00, 0x00, 0x00, 0x00, 0x00, 0x00, 0x00, 0x00, 0x00,
   0x01, 0x00, 0x00, 0x00, 0x08, 0x00, 0x00, 0x00, 0x03, 0x00, 0x00, 0x00, 0x00, 0x00, 0x00, 0x00,
   0x00, 0x40, 0x00, 0x00, 0x00, 0x00, 0x00, 0x00, 0x00, 0x01, 0x00, 0x00, 0x00, 0x00, 0x00, 0x00,
   0x08, 0x00, 0x00, 0x00, 0x00, 0x00, 0x00, 0x00, 0x00, 0x00, 0x00, 0x00, 0x00, 0x00, 0x00, 0x00,
   0x08, 0x00, 0x00, 0x00, 0x00, 0x00, 0x00, 0x00, 0x00, 0x00, 0x00, 0x00, 0x00, 0x00, 0x00, 0x00,
   0x06, 0x00, 0x00, 0x00, 0x03, 0x00, 0x00, 0x00, 0x00, 0x00, 0x00, 0x00, 0x00, 0x00, 0x00, 0x00,
   0x00, 0x00, 0x00, 0x00, 0x00, 0x00, 0x00, 0x00, 0x00, 0x01, 0x00, 0x00, 0x00, 0x00, 0x00, 0x00,
   0x10, 0x00, 0x00, 0x00, 0x00, 0x00, 0x00, 0x00, 0x00, 0x00, 0x00, 0x00, 0x00, 0x00, 0x00, 0x00,
   0x01, 0x00, 0x00, 0x00, 0x00, 0x00, 0x00, 0x00, 0x00, 0x00, 0x00, 0x00, 0x00, 0x00, 0x00, 0x00,
   0x00, 0x2E, 0x62, 0x73, 0x73, 0x00, 0x2E, 0x73, 0x68, 0x73, 0x74, 0x72, 0x74, 0x61, 0x62, 0x00]

/-- A 64-bit little-endian file of 120 bytes: header and one program header at 64
whose `Offset` is 0 and whose `Filesz` is 121, one more than the length. -/
def sampleSegmentInSpare : List Byte :=
  [0x7F, 0x45, 0x4C, 0x46, 0x02, 0x01, 0x01, 0x00, 0x00, 0x00, 0x00, 0x00, 0x00, 0x00, 0x00, 0x00,
   0x02, 0x00, 0x3E, 0x00, 0x01, 0x00, 0x00, 0x00, 0x00, 0x00, 0x00, 0x00, 0x00, 0x00, 0x00, 0x00,
   0x40, 0x00, 0x00, 0x00, 0x00, 0x00, 0x00, 0x00, 0x00, 0x00, 0x00, 0x00, 0x00, 0x00, 0x00, 0x00,
   0x00, 0x00, 0x00, 0x00, 0x40, 0x00, 0x38, 0x00, 0x01, 0x00, 0x40, 0x00, 0x00, 0x00, 0x00, 0x00,
   0x01, 0x00, 0x00, 0x00, 0x04, 0x00, 0x00, 0x00, 0x00, 0x00, 0x00, 0x00, 0x00, 0x00, 0x00, 0x00,
   0x00, 0x00, 0x00, 0x00, 0x00, 0x00, 0x00, 0x00, 0x00, 0x00, 0x00, 0x00, 0x00, 0x00, 0x00, 0x00,
   0x79, 0x00, 0x00, 0x00, 0x00, 0x00, 0x00, 0x00, 0x79, 0x00, 0x00, 0x00, 0x00, 0x00, 0x00, 0x00,
   0x01, 0x00, 0x00, 0x00, 0x00, 0x00, 0x00, 0x00]

/-- A 64-bit little-endian file of 128 bytes with one section header at 64 and
`Shstrndx = 0`: the section has `Name = 7` (an empty name), `Offset = 0` and
`Size = 0x1000`. -/
def sampleSectionOverrun : List Byte :=
  [0x7F, 0x45, 0x4C, 0x46, 0x02, 0x01, 0x01, 0x00, 0x00, 0x00, 0x00, 0x00, 0x00, 0x00, 0x00, 0x00,
   0x01, 0x00, 0x3E, 0x00, 0x01, 0x00, 0x00, 0x00, 0x00, 0x00, 0x00, 0x00, 0x00, 0x00, 0x00, 0x00,
   0x00, 0x00, 0x00, 0x00, 0x00, 0x00, 0x00, 0x00, 0x40, 0x00, 0x00, 0x00, 0x00, 0x00, 0x00, 0x00,
   0x00, 0x00, 0x00, 0x00, 0x40, 0x00, 0x38, 0x00, 0x00, 0x00, 0x40, 0x00, 0x01, 0x00, 0x00, 0x00,
   0x07, 0x00, 0x00, 0x00, 0x01, 0x00, 0x00, 0x00, 0x02, 0x00, 0x00, 0x00, 0x00, 0x00, 0x00, 0x00,
   0x00, 0x00, 0x00, 0x00, 0x00, 0x00, 0x00, 0x00, 0x00, 0x00, 0x00, 0x00, 0x00, 0x00, 0x00, 0x00,
   0x00, 0x10, 0x00, 0x00, 0x00, 0x00, 0x00, 0x00, 0x00, 0x00, 0x00, 0x00, 0x00, 0x00, 0x00, 0x00,
   0x01, 0x00, 0x00, 0x00, 0x00, 0x00, 0x00, 0x00, 0x00, 0x00, 0x00, 0x00, 0x00, 0x00, 0x00, 0x00]

/-- A 64-bit little-endian file of 128 bytes with one section header at 64 and
`Shstrndx = 0`: the section, at index 0, has type PROGBITS (1), `Name = 7`,
`Offset = 0` and `Size = 16`. -/
def sampleFirstProgbits : List Byte :=
  [0x7F, 0x45, 0x4C, 0x46, 0x02, 0x01, 0x01, 0x00, 0x00, 0x00, 0x00, 0x00, 0x00, 0x00, 0x00, 0x00,
   0x01, 0x00, 0x3E, 0x00, 0x01, 0x00, 0x00, 0x00, 0x00, 0x00, 0x00, 0x00, 0x00, 0x00, 0x00, 0x00,
   0x00, 0x00, 0x00, 0x00, 0x00, 0x00, 0x00, 0x00, 0x40, 0x00, 0x00, 0x00, 0x00, 0x00, 0x00, 0x00,
   0x00, 0x00, 0x00, 0x00, 0x40, 0x00, 0x38, 0x00, 0x00, 0x00, 0x40, 0x00, 0x01, 0x00, 0x00, 0x00,
   0x07, 0x00, 0x00, 0x00, 0x01, 0x00, 0x00, 0x00, 0x06, 0x00, 0x00, 0x00, 0x00, 0x00, 0x00, 0x00,
   0x00, 0x10, 0x00, 0x00, 0x00, 0x00, 0x00, 0x00, 0x00, 0x00, 0x00, 0x00, 0x00, 0x00, 0x00, 0x00,
   0x10, 0x00, 0x00, 0x00, 0x00, 0x00, 0x00, 0x00, 0x00, 0x00, 0x00, 0x00, 0x00, 0x00, 0x00, 0x00,
   0x10, 0x00, 0x00, 0x00, 0x00, 0x00, 0x00, 0x00, 0x00, 0x00, 0x00, 0x00, 0x00, 0x00, 0x00, 0x00]

/-- The model of `sampleBss`. -/
def sampleBssFile : ELFFile :=
  { Header :=
      { Ident := [0x7F, 0x45, 0x4C, 0x46, 2, 1, 1, 0, 0, 0, 0, 0, 0, 0, 0, 0]
        Type_ := 1, Machine := 0x3E, Version := 1, Entry := 0, Phoff := 0, Shoff := 64
        Flags := 0, Ehsize := 64, Phentsize := 56, Phnum := 0, Shentsize := 64, Shnum := 3
        Shstrndx := 2 }
    Sections :=
      [{ Header := { Name := 0, Type_ := 0, Flags := 0, Addr := 0, Offset := 0, Size := 0,
                     Link := 0, Info := 0, Addralign := 0, EntSize := 0 }
         Name := []
         Raw := [] },
       { Header := { Name := 1, Type_ := 8, Flags := 3, Addr := 0x4000, Offset := 256, Size := 8,
                     Link := 0, Info := 0, Addralign := 8, EntSize := 0 }
         Name := [0x2E, 0x62, 0x73, 0x73]
         Raw := [0, 0x2E, 0x62, 0x73, 0x73, 0, 0x2E, 0x73] },
       { Header := { Name := 6, Type_ := 3, Flags := 0, Addr := 0, Offset := 256, Size := 16,
                     Link := 0, Info := 0, Addralign := 1, EntSize := 0 }
         Name := [0x2E, 0x73, 0x68, 0x73, 0x74, 0x72, 0x74, 0x61, 0x62]
         Raw := [0, 0x2E, 0x62, 0x73, 0x73, 0, 0x2E, 0x73, 0x68, 0x73, 0x74, 0x72, 0x74, 0x61,
                 0x62, 0] }]
    Segments := []
    Endianness := .LittleEndian
    Raw := sampleBss }

/-- The model `New` builds of `sampleSegmentInSpare` when the backing array holds
one more byte, `AA`, after the 120 bytes of the buffer: the content view of its
segment is the buffer followed by that byte. -/
def sampleSegmentInSpareFile : ELFFile :=
  { Header :=
      { Ident := [0x7F, 0x45, 0x4C, 0x46, 2, 1, 1, 0, 0, 0, 0, 0, 0, 0, 0, 0]
        Type_ := 2, Machine := 0x3E, Version := 1, Entry := 0, Phoff := 64, Shoff := 0
        Flags := 0, Ehsize := 64, Phentsize := 56, Phnum := 1, Shentsize := 64, Shnum := 0
        Shstrndx := 0 }
    Sections := []
    Segments :=
      [{ Header := { Type_ := 1, Flags := 4, Offset := 0, Vaddr := 0, Paddr := 0,
                     Filesz := 121, Memsz := 121, Align := 1 }
         Raw := sampleSegmentInSpare ++ [0xAA] }]
    Endianness := .LittleEndian
    Raw := sampleSegmentInSpare }

/-- The model of `sampleFirstProgbits`. -/
def sampleFirstProgbitsFile : ELFFile :=
  { Header :=
      { Ident := [0x7F, 0x45, 0x4C, 0x46, 2, 1, 1, 0, 0, 0, 0, 0, 0, 0, 0, 0]
        Type_ := 1, Machine := 0x3E, Version := 1, Entry := 0, Phoff := 0, Shoff := 64
        Flags := 0, Ehsize := 64, Phentsize := 56, Phnum := 0, Shentsize := 64, Shnum := 1
        Shstrndx := 0 }
    Sections :=
      [{ Header := { Name := 7, Type_ := 1, Flags := 6, Addr := 0x1000, Offset := 0, Size := 16,
                     Link := 0, Info := 0, Addralign := 16, EntSize := 0 }
         Name := []
         Raw := sampleFirstProgbits.take 16 }]
    Segments := []
    Endianness := .LittleEndian
    Raw := sampleFirstProgbits }

/-- A 64-bit little-endian file of 131 bytes with one section header at 64 and
`Shstrndx = 0`: the section has `Name = 0`, `Offset = 128` and `Size = 3`, and the
buffer ends with the three bytes `61 62 63` at 128, with no zero byte after them. -/
def sampleUnterminatedName : List Byte :=
  [0x7F, 0x45, 0x4C, 0x46, 0x02, 0x01, 0x01, 0x00, 0x00, 0x00, 0x00, 0x00, 0x00, 0x00, 0x00, 0x00,
   0x01, 0x00, 0x3E, 0x00, 0x01, 0x00, 0x00, 0x00, 0x00, 0x00, 0x00, 0x00, 0x00, 0x00, 0x00, 0x00,
   0x00, 0x00, 0x00, 0x00, 0x00, 0x00, 0x00, 0x00, 0x40, 0x00, 0x00, 0x00, 0x00, 0x00, 0x00, 0x00,
   0x00, 0x00, 0x00, 0x00, 0x40, 0x00, 0x38, 0x00, 0x00, 0x00, 0x40, 0x00, 0x01, 0x00, 0x00, 0x00,
   0x00, 0x00, 0x00, 0x00, 0x03, 0x00, 0x00, 0x00, 0x00, 0x00, 0x00, 0x00, 0x00, 0x00, 0x00, 0x00,
   0x00, 0x00, 0x00, 0x00, 0x00, 0x00, 0x00, 0x00, 0x80, 0x00, 0x00, 0x00, 0x00, 0x00, 0x00, 0x00,
   0x03, 0x00, 0x00, 0x00, 0x00, 0x00, 0x00, 0x00, 0x00, 0x00, 0x00, 0x00, 0x00, 0x00, 0x00, 0x00,
   0x01, 0x00, 0x00, 0x00, 0x00, 0x00, 0x00, 0x00, 0x00, 0x00, 0x00, 0x00, 0x00, 0x00, 0x00, 0x00,
   0x61, 0x62, 0x63]

/-- A 64-bit little-endian file of 128 bytes with `Shnum = 1`, `Shstrndx = 1` and one
all-zero section header at 64. -/
def sampleStrndxOut : List Byte :=
  [0x7F, 0x45, 0x4C, 0x46, 0x02, 0x01, 0x01, 0x00, 0x00, 0x00, 0x00, 0x00, 0x00, 0x00, 0x00, 0x00,
   0x01, 0x00, 0x3E, 0x00, 0x01, 0x00, 0x00, 0x00, 0x00, 0x00, 0x00, 0x00, 0x00, 0x00, 0x00, 0x00,
   0x00, 0x00, 0x00, 0x00, 0x00, 0x00, 0x00, 0x00, 0x40, 0x00, 0x00, 0x00, 0x00, 0x00, 0x00, 0x00,
   0x00, 0x00, 0x00, 0x00, 0x40, 0x00, 0x38, 0x00, 0x00, 0x00, 0x40, 0x00, 0x01, 0x00, 0x01, 0x00,
   0x00, 0x00, 0x00, 0x00, 0x00, 0x00, 0x00, 0x00, 0x00, 0x00, 0x00, 0x00, 0x00, 0x00, 0x00, 0x00,
   0x00, 0x00, 0x00, 0x00, 0x00, 0x00, 0x00, 0x00, 0x00, 0x00, 0x00, 0x00, 0x00, 0x00, 0x00, 0x00,
   0x00, 0x00, 0x00, 0x00, 0x00, 0x00, 0x00, 0x00, 0x00, 0x00, 0x00, 0x00, 0x00, 0x00, 0x00, 0x00,
   0x00, 0x00, 0x00, 0x00, 0x00, 0x00, 0x00, 0x00, 0x00, 0x00, 0x00, 0x00, 0x00, 0x00, 0x00, 0x00]

/-! ## Lemmas -/

/-! ### Byte-order decoding and the integer stored at a position -/

theorem exists_cons2 (l : List Byte) (h : 2 ≤ l.length) :
    ∃ b0 b1 t, l = b0 :: b1 :: t := by
  match l, h with
  | b0 :: b1 :: t, _ => exact ⟨b0, b1, t, rfl⟩

theorem exists_cons4 (l : List Byte) (h : 4 ≤ l.length) :
    ∃ b0 b1 b2 b3 t, l = b0 :: b1 :: b2 :: b3 :: t := by
  match l, h with
  | b0 :: b1 :: b2 :: b3 :: t, _ => exact ⟨b0, b1, b2, b3, t, rfl⟩

theorem exists_cons8 (l : List Byte) (h : 8 ≤ l.length) :
    ∃ b0 b1 b2 b3 b4 b5 b6 b7 t, l = b0 :: b1 :: b2 :: b3 :: b4 :: b5 :: b6 :: b7 :: t := by
  match l, h with
  | b0 :: b1 :: b2 :: b3 :: b4 :: b5 :: b6 :: b7 :: t, _ =>
    exact ⟨b0, b1, b2, b3, b4, b5, b6, b7, t, rfl⟩

theorem Uint16_eq_uintAt (order : ByteOrder) (buf : List Byte) (off : Nat)
    (h : off + 2 ≤ buf.length) : order.Uint16 (buf.drop off) = uintAt order buf off 2 := by
  obtain ⟨b0, b1, t, ht⟩ := exists_cons2 (buf.drop off) (by simp; omega)
  cases order <;> simp [uintAt, ht, ByteOrder.Uint16] <;> omega

theorem Uint32_eq_uintAt (order : ByteOrder) (buf : List Byte) (off : Nat)
    (h : off + 4 ≤ buf.length) : order.Uint32 (buf.drop off) = uintAt order buf off 4 := by
  obtain ⟨b0, b1, b2, b3, t, ht⟩ := exists_cons4 (buf.drop off) (by simp; omega)
  cases order <;> simp [uintAt, ht, ByteOrder.Uint32] <;> omega

theorem Uint64_eq_uintAt (order : ByteOrder) (buf : List Byte) (off : Nat)
    (h : off + 8 ≤ buf.length) : order.Uint64 (buf.drop off) = uintAt order buf off 8 := by
  obtain ⟨b0, b1, b2, b3, b4, b5, b6, b7, t, ht⟩ := exists_cons8 (buf.drop off) (by simp; omega)
  cases order <;> simp [uintAt, ht, ByteOrder.Uint64] <;> omega

theorem uintAt_take (order : ByteOrder) (raw : List Byte) (n pos w : Nat) (h : pos + w ≤ n) :
    uintAt order (raw.take n) pos w = uintAt order raw pos w := by
  have : ((raw.take n).drop pos).take w = (raw.drop pos).take w := by
    rw [List.drop_take, List.take_take]; congr 1; omega
  simp [uintAt, this]

theorem uintAt_drop (order : ByteOrder) (raw : List Byte) (a pos w : Nat) :
    uintAt order (raw.drop a) pos w = uintAt order raw (a + pos) w := by
  simp [uintAt, List.drop_drop, Nat.add_comm]

theorem foldr_lt (l : List Byte) : l.foldr (fun b acc => b.val + 256 * acc) 0 < 256 ^ l.length := by
  induction l with
  | nil => simp
  | cons b t ih =>
    simp only [List.foldr_cons, List.length_cons, pow_succ]
    have := b.isLt
    omega

theorem foldl_lt (l : List Byte) (a : Nat) :
    l.foldl (fun acc b => 256 * acc + b.val) a < (a + 1) * 256 ^ l.length := by
  induction l generalizing a with
  | nil => simp
  | cons b t ih =>
    simp only [List.foldl_cons, List.length_cons]
    have := b.isLt
    calc _ < (256 * a + b.val + 1) * 256 ^ t.length := ih _
      _ ≤ ((a + 1) * 256) * 256 ^ t.length := Nat.mul_le_mul_right _ (by omega)
      _ = _ := by ring

theorem uintAt_lt (order : ByteOrder) (raw : List Byte) (pos w : Nat) :
    uintAt order raw pos w < 256 ^ w := by
  have hl : ((raw.drop pos).take w).length ≤ w := by simp
  have hp : 256 ^ ((raw.drop pos).take w).length ≤ 256 ^ w := Nat.pow_le_pow_right (by omega) hl
  cases order
  · exact lt_of_lt_of_le (foldr_lt _) hp
  · have := foldl_lt ((raw.drop pos).take w) 0
    simp only [uintAt]
    omega

/-! ### The decoder reads every record at its fixed offsets -/

theorem decoder_ELFHeader (order : ByteOrder) (buf : List Byte) (h : 64 ≤ buf.length) :
    (decoder.ELFHeader { order := order, buf := buf, offset := 0 }).1 = headerAt64 order buf := by
  simp only [decoder.ELFHeader, decoder.bytes, decoder.uint16, decoder.uint32, decoder.uint64,
    headerAt64, Nat.zero_add, List.drop_zero, Nat.reduceAdd]
  rw [Uint16_eq_uintAt _ _ 16 (by omega), Uint16_eq_uintAt _ _ 18 (by omega),
    Uint32_eq_uintAt _ _ 20 (by omega), Uint64_eq_uintAt _ _ 24 (by omega),
    Uint64_eq_uintAt _ _ 32 (by omega), Uint64_eq_uintAt _ _ 40 (by omega),
    Uint32_eq_uintAt _ _ 48 (by omega), Uint16_eq_uintAt _ _ 52 (by omega),
    Uint16_eq_uintAt _ _ 54 (by omega), Uint16_eq_uintAt _ _ 56 (by omega),
    Uint16_eq_uintAt _ _ 58 (by omega), Uint16_eq_uintAt _ _ 60 (by omega),
    Uint16_eq_uintAt _ _ 62 (by omega)]

theorem decoder_elfHeader32 (order : ByteOrder) (buf : List Byte) (h : 52 ≤ buf.length) :
    convertToELFHeader (decoder.elfHeader32 { order := order, buf := buf, offset := 0 }).1
      = headerAt32 order buf := by
  simp only [decoder.elfHeader32, decoder.bytes, decoder.uint16, decoder.uint32,
    convertToELFHeader, headerAt32, Nat.zero_add, List.drop_zero, Nat.reduceAdd]
  rw [Uint16_eq_uintAt _ _ 16 (by omega), Uint16_eq_uintAt _ _ 18 (by omega),
    Uint32_eq_uintAt _ _ 20 (by omega), Uint32_eq_uintAt _ _ 24 (by omega),
    Uint32_eq_uintAt _ _ 28 (by omega), Uint32_eq_uintAt _ _ 32 (by omega),
    Uint32_eq_uintAt _ _ 36 (by omega), Uint16_eq_uintAt _ _ 40 (by omega),
    Uint16_eq_uintAt _ _ 42 (by omega), Uint16_eq_uintAt _ _ 44 (by omega),
    Uint16_eq_uintAt _ _ 46 (by omega), Uint16_eq_uintAt _ _ 48 (by omega),
    Uint16_eq_uintAt _ _ 50 (by omega)]

theorem decoder_SectionHeader (order : ByteOrder) (buf : List Byte) (off : Nat)
    (h : off + 64 ≤ buf.length) :
    decoder.SectionHeader { order := order, buf := buf, offset := off }
      = (sectionHeaderAt64 order buf off, { order := order, buf := buf, offset := off + 64 }) := by
  simp only [decoder.SectionHeader, decoder.uint32, decoder.uint64, sectionHeaderAt64,
    Nat.add_assoc, Nat.reduceAdd]
  rw [Uint32_eq_uintAt _ _ off (by omega), Uint32_eq_uintAt _ _ (off + 4) (by omega),
    Uint64_eq_uintAt _ _ (off + 8) (by omega), Uint64_eq_uintAt _ _ (off + 16) (by omega),
    Uint64_eq_uintAt _ _ (off + 24) (by omega), Uint64_eq_uintAt _ _ (off + 32) (by omega),
    Uint32_eq_uintAt _ _ (off + 40) (by omega), Uint32_eq_uintAt _ _ (off + 44) (by omega),
    Uint64_eq_uintAt _ _ (off + 48) (by omega), Uint64_eq_uintAt _ _ (off + 56) (by omega)]

theorem decoder_sectionHeader32 (order : ByteOrder) (buf : List Byte) (off : Nat)
    (h : off + 40 ≤ buf.length) :
    convertToSectionHeader (decoder.sectionHeader32 { order := order, buf := buf, offset := off }).1
        = sectionHeaderAt32 order buf off ∧
      (decoder.sectionHeader32 { order := order, buf := buf, offset := off }).2
        = { order := order, buf := buf, offset := off + 40 } := by
  simp only [decoder.sectionHeader32, decoder.uint32, convertToSectionHeader, sectionHeaderAt32,
    Nat.add_assoc, Nat.reduceAdd]
  rw [Uint32_eq_uintAt _ _ off (by omega), Uint32_eq_uintAt _ _ (off + 4) (by omega),
    Uint32_eq_uintAt _ _ (off + 8) (by omega), Uint32_eq_uintAt _ _ (off + 12) (by omega),
    Uint32_eq_uintAt _ _ (off + 16) (by omega), Uint32_eq_uintAt _ _ (off + 20) (by omega),
    Uint32_eq_uintAt _ _ (off + 24) (by omega), Uint32_eq_uintAt _ _ (off + 28) (by omega),
    Uint32_eq_uintAt _ _ (off + 32) (by omega), Uint32_eq_uintAt _ _ (off + 36) (by omega)]
  exact ⟨rfl, trivial⟩

theorem decoder_ProgramHeader (order : ByteOrder) (buf : List Byte) (off : Nat)
    (h : off + 56 ≤ buf.length) :
    decoder.ProgramHeader { order := order, buf := buf, offset := off }
      = (programHeaderAt64 order buf off, { order := order, buf := buf, offset := off + 56 }) := by
  simp only [decoder.ProgramHeader, decoder.uint32, decoder.uint64, programHeaderAt64,
    Nat.add_assoc, Nat.reduceAdd]
  rw [Uint32_eq_uintAt _ _ off (by omega), Uint32_eq_uintAt _ _ (off + 4) (by omega),
    Uint64_eq_uintAt _ _ (off + 8) (by omega), Uint64_eq_uintAt _ _ (off + 16) (by omega),
    Uint64_eq_uintAt _ _ (off + 24) (by omega), Uint64_eq_uintAt _ _ (off + 32) (by omega),
    Uint64_eq_uintAt _ _ (off + 40) (by omega), Uint64_eq_uintAt _ _ (off + 48) (by omega)]

/-- A slice of `n` records of `sz` bytes each is decoded record by record at
the offsets `off`, `off + sz`, ... -/
theorem decoder_slice {α β : Type} (elem : decoder → α × decoder) (conv : α → β)
    (rec : Nat → β) (sz : Nat) (order : ByteOrder) (buf : List Byte)
    (helem : ∀ off, off + sz ≤ buf.length →
      conv (elem { order := order, buf := buf, offset := off }).1 = rec off ∧
      (elem { order := order, buf := buf, offset := off }).2
        = { order := order, buf := buf, offset := off + sz }) :
    ∀ n off, off + n * sz ≤ buf.length →
      ((decoder.slice elem n { order := order, buf := buf, offset := off }).1).map conv
        = (List.range n).map (fun i => rec (off + i * sz)) ∧
      (decoder.slice elem n { order := order, buf := buf, offset := off }).2
        = { order := order, buf := buf, offset := off + n * sz } := by
  intro n
  induction n with
  | zero => intro off _; simp [decoder.slice]
  | succ n ih =>
    intro off h
    have hle : off + sz ≤ buf.length := by
      have : off + (n * sz + sz) ≤ buf.length := by rwa [Nat.succ_mul] at h
      omega
    obtain ⟨h1, h2⟩ := helem off hle
    have h3 : off + sz + n * sz ≤ buf.length := by
      rw [Nat.succ_mul] at h; omega
    obtain ⟨h4, h5⟩ := ih (off + sz) h3
    simp only [decoder.slice, List.map_cons, h1, h2, h4, h5, List.range_succ_eq_map,
      List.map_map]
    refine ⟨?_, ?_⟩
    · simp only [Nat.zero_mul, Nat.add_zero, List.cons.injEq, true_and]
      apply List.map_congr_left
      intro i _
      simp only [Function.comp, Nat.succ_mul]
      congr 1; omega
    · congr 1; rw [Nat.succ_mul]; omega

theorem sectionHeaderAt64_take (order : ByteOrder) (r : List Byte) (m p : Nat) (h : p + 64 ≤ m) :
    sectionHeaderAt64 order (r.take m) p = sectionHeaderAt64 order r p := by
  simp (disch := omega) only [sectionHeaderAt64, uintAt_take]

theorem sectionHeaderAt32_take (order : ByteOrder) (r : List Byte) (m p : Nat) (h : p + 40 ≤ m) :
    sectionHeaderAt32 order (r.take m) p = sectionHeaderAt32 order r p := by
  simp (disch := omega) only [sectionHeaderAt32, uintAt_take]

theorem programHeaderAt64_take (order : ByteOrder) (r : List Byte) (m p : Nat) (h : p + 56 ≤ m) :
    programHeaderAt64 order (r.take m) p = programHeaderAt64 order r p := by
  simp (disch := omega) only [programHeaderAt64, uintAt_take]

theorem sectionHeaderAt64_drop (order : ByteOrder) (raw : List Byte) (a p : Nat) :
    sectionHeaderAt64 order (raw.drop a) p = sectionHeaderAt64 order raw (a + p) := by
  simp only [sectionHeaderAt64, uintAt_drop, Nat.add_assoc]

theorem sectionHeaderAt32_drop (order : ByteOrder) (raw : List Byte) (a p : Nat) :
    sectionHeaderAt32 order (raw.drop a) p = sectionHeaderAt32 order raw (a + p) := by
  simp only [sectionHeaderAt32, uintAt_drop, Nat.add_assoc]

theorem programHeaderAt64_drop (order : ByteOrder) (raw : List Byte) (a p : Nat) :
    programHeaderAt64 order (raw.drop a) p = programHeaderAt64 order raw (a + p) := by
  simp only [programHeaderAt64, uintAt_drop, Nat.add_assoc]

/-- The result of `binary.Read` into a slice of `n` records of `sz` bytes. -/
theorem binaryRead_slice {α β : Type} (elem : decoder → α × decoder) (conv : α → β)
    (rec : List Byte → Nat → β) (sz : Nat) (order : ByteOrder) (r : List Byte) (n : Nat)
    (helem : ∀ buf off, off + sz ≤ buf.length →
      conv (elem { order := order, buf := buf, offset := off }).1 = rec buf off ∧
      (elem { order := order, buf := buf, offset := off }).2
        = { order := order, buf := buf, offset := off + sz })
    (htake : ∀ m p, p + sz ≤ m → rec (r.take m) p = rec r p)
    (hlen : n * sz ≤ r.length) :
    ∃ l, binaryRead r order (n * sz) (decoder.slice elem n) = .ok l ∧
      l.map conv = (List.range n).map (fun i => rec r (i * sz)) := by
  refine ⟨(decoder.slice elem n { order := order, buf := r.take (n * sz), offset := 0 }).1,
    by simp [binaryRead, readFull, hlen], ?_⟩
  have hb : 0 + n * sz ≤ (r.take (n * sz)).length := by simp; omega
  rw [(decoder_slice elem conv (rec (r.take (n * sz))) sz order (r.take (n * sz))
    (helem _) n 0 hb).1]
  apply List.map_congr_left
  intro i hi
  rw [Nat.zero_add]
  apply htake
  have hi : i + 1 ≤ n := by simpa [List.mem_range] using hi
  calc i * sz + sz = (i + 1) * sz := by ring
    _ ≤ n * sz := Nat.mul_le_mul_right _ hi

theorem binaryRead_short {α : Type} (r : List Byte) (order : ByteOrder) (size : Nat)
    (value : decoder → α × decoder) (h : r.length < size) :
    ∃ e, binaryRead r order size value = .error e := by
  unfold binaryRead readFull
  rw [if_neg (by omega)]
  split_ifs <;> exact ⟨_, rfl⟩

theorem binaryRead_ok_length {α : Type} {r : List Byte} {order : ByteOrder} {size : Nat}
    {value : decoder → α × decoder} {a : α} (h : binaryRead r order size value = .ok a) :
    size ≤ r.length := by
  unfold binaryRead readFull at h
  by_contra hlt
  rw [if_neg hlt] at h
  split_ifs at h

/-! ### Identification and file header -/

theorem Result.bind_eq_ok {α β : Type} {x : Result α} {f : α → Result β} {b : β} :
    x.bind f = .ok b ↔ ∃ a, x = .ok a ∧ f a = .ok b := by
  cases x <;> simp [Result.bind]

theorem index_eq_ok {raw : List Byte} {i : Nat} {b : Byte} :
    index raw i = .ok b ↔ raw[i]? = some b := by
  unfold index
  cases h : raw[i]? <;> simp

theorem length_of_getElem?_eq_some {raw : List Byte} {i : Nat} {b : Byte}
    (h : raw[i]? = some b) : i < raw.length := by
  by_contra hlt
  rw [List.getElem?_eq_none (by omega)] at h
  cases h

theorem endiannessOf_eq_ok {raw : List Byte} {order : ByteOrder} :
    endiannessOf raw = .ok order ↔ raw[5]? = some order.code := by
  unfold endiannessOf index
  simp only [EI_DATA]
  cases h : raw[5]? with
  | none => simp [Result.bind]
  | some b =>
    simp only [Result.bind]
    by_cases h1 : b = 1
    · subst h1; cases order <;> simp [ByteOrder.code]
    · by_cases h2 : b = 2
      · subst h2; cases order <;> simp [ByteOrder.code]
      · cases order <;> simp [ByteOrder.code, h1, h2]

theorem readHeader_eq_ok {raw : List Byte} {order : ByteOrder} {cls : Byte} {h : ELFHeader} :
    readHeader raw order cls = .ok h ↔
      (cls = 1 ∧ 52 ≤ raw.length ∧ h = headerAt32 order raw) ∨
      (cls ≠ 1 ∧ 64 ≤ raw.length ∧ h = headerAt64 order raw) := by
  unfold readHeader binaryRead readFull
  by_cases hc : cls = 1
  · simp only [hc, if_true, elfHeader32.size, Nat.reduceAdd]
    by_cases hl : 52 ≤ raw.length
    · simp only [hl, if_true]
      rw [decoder_elfHeader32 _ _ (by simp; omega)]
      have : headerAt32 order (List.take 52 raw) = headerAt32 order raw := by
        simp (disch := omega) [headerAt32, uintAt_take, List.take_take]
      simp [this, eq_comm]
    · simp only [hl, if_false]
      split_ifs <;> simp
  · simp only [hc, if_false, ELFHeader.size, Nat.reduceAdd]
    by_cases hl : 64 ≤ raw.length
    · simp only [hl, if_true]
      rw [decoder_ELFHeader _ _ (by simp; omega)]
      have : headerAt64 order (List.take 64 raw) = headerAt64 order raw := by
        simp (disch := omega) [headerAt64, uintAt_take, List.take_take]
      simp [this, eq_comm, hc]
    · simp only [hl, if_false]
      split_ifs <;> simp

theorem readHeader_of_valid {raw : List Byte} {cls : Byte} {order : ByteOrder}
    (hc : cls = 1 ∨ cls = 2) (hlen : headerSize cls ≤ raw.length) :
    readHeader raw order cls = .ok (headerAt cls order raw) := by
  rw [readHeader_eq_ok]
  rcases hc with hc | hc
  · left; subst hc; exact ⟨rfl, by simpa [headerSize] using hlen, by simp [headerAt]⟩
  · right; subst hc
    exact ⟨by decide, by simpa [headerSize] using hlen, by simp [headerAt]⟩

theorem headerAt_Ident (cls : Byte) (order : ByteOrder) (raw : List Byte) :
    (headerAt cls order raw).Ident = raw.take 16 := by
  unfold headerAt; split_ifs <;> rfl

theorem headerAt_Ident_class {raw : List Byte} {cls : Byte} (order : ByteOrder)
    (h4 : raw[4]? = some cls) : (headerAt cls order raw).Ident[4]? = some cls := by
  rw [headerAt_Ident, List.getElem?_take]
  simpa using h4

/-- What a successful call of `New` went through. -/
theorem New_eq_ok {raw spare : List Byte} {f : ELFFile} (h : New raw spare = .ok f) :
    ∃ cls, raw.take 4 = ELF_MAGIC ∧ raw[4]? = some cls ∧ (cls = 1 ∨ cls = 2) ∧
      raw[5]? = some f.Endianness.code ∧
      readHeader raw f.Endianness cls = .ok f.Header ∧
      buildSections raw spare f.Endianness f.Header = .ok f.Sections ∧
      buildSegments raw spare f.Endianness f.Header = .ok f.Segments ∧
      f.Raw = raw := by
  unfold New at h
  split_ifs at h with h1 h2
  simp only [MAGIC_SIZE, ne_eq, not_not] at h2
  obtain ⟨order, ho, h⟩ := Result.bind_eq_ok.1 h
  obtain ⟨cls, hc, h⟩ := Result.bind_eq_ok.1 h
  split_ifs at h with h3
  obtain ⟨header, hh, h⟩ := Result.bind_eq_ok.1 h
  obtain ⟨sections, hs, h⟩ := Result.bind_eq_ok.1 h
  obtain ⟨segments, hg, h⟩ := Result.bind_eq_ok.1 h
  simp only [Result.ok.injEq] at h
  subst h
  refine ⟨cls, h2, index_eq_ok.1 hc, ?_, endiannessOf_eq_ok.1 ho, hh, hs, hg, rfl⟩
  by_cases c1 : cls = 1
  · exact Or.inl c1
  · by_cases c2 : cls = 2
    · exact Or.inr c2
    · exact absurd ⟨c1, c2⟩ h3

/-- With valid identification bytes and a complete file header, `New` is the
section table builder followed by the segment table builder. -/
theorem New_of_valid {raw : List Byte} {cls : Byte} {order : ByteOrder} (spare : List Byte)
    (hid : ValidIdent raw cls order) (hlen : headerSize cls ≤ raw.length) :
    New raw spare =
      (buildSections raw spare order (headerAt cls order raw)).bind fun sections =>
      (buildSegments raw spare order (headerAt cls order raw)).bind fun segments =>
      .ok { Header := headerAt cls order raw, Sections := sections, Segments := segments,
            Endianness := order, Raw := raw } := by
  obtain ⟨hm, h4, hc, h5⟩ := hid
  have hl5 := length_of_getElem?_eq_some h5
  unfold New
  rw [if_neg (by simp [MAGIC_SIZE]; omega), if_neg (by simp [MAGIC_SIZE, ELF_MAGIC, hm])]
  have h4i : index raw EI_CLASS = .ok cls := index_eq_ok.2 h4
  rw [endiannessOf_eq_ok.2 h5]
  simp only [Result.bind, h4i]
  rw [if_neg (by rcases hc with hc | hc <;> simp [hc]), readHeader_of_valid hc hlen]

theorem New_Ident_class {raw spare : List Byte} {f : ELFFile} (h : New raw spare = .ok f) :
    f.Header.Ident[4]? = raw[4]? := by
  obtain ⟨cls, -, h4, -, -, hh, -⟩ := New_eq_ok h
  rw [readHeader_eq_ok] at hh
  have : f.Header.Ident = raw.take 16 := by
    rcases hh with ⟨-, -, hh⟩ | ⟨-, -, hh⟩ <;> rw [hh] <;> rfl
  rw [this, List.getElem?_take]
  simp

theorem New_error_of_short {raw spare : List Byte} (h : raw.length < 4) :
    ∃ e, New raw spare = .error e := by
  unfold New
  rw [if_pos (by simpa [MAGIC_SIZE] using h)]
  exact ⟨_, rfl⟩

theorem New_error_of_magic {raw spare : List Byte} (h : raw.take 4 ≠ [0x7F, 0x45, 0x4C, 0x46]) :
    ∃ e, New raw spare = .error e := by
  unfold New
  split_ifs with h1 h2
  · exact ⟨_, rfl⟩
  · exact ⟨_, rfl⟩
  · exact absurd (by simpa [MAGIC_SIZE, ELF_MAGIC] using h2) h

/-! ### Section and segment tables -/

theorem getElem?_map_range {β : Type} (g : Nat → β) (n i : Nat) (hi : i < n) :
    ((List.range n).map g)[i]? = some (g i) := by
  simp [List.getElem?_map, List.getElem?_range hi]

theorem readSectionHeaders_eq_ok {r : List Byte} {order : ByteOrder} {header : ELFHeader}
    {shs : List SectionHeader} (h : readSectionHeaders r order header = .ok shs) :
    (header.Ident[4]? = some 1 ∧ header.Shnum * 40 ≤ r.length ∧
      shs = (List.range header.Shnum).map (fun i => sectionHeaderAt32 order r (i * 40))) ∨
    (header.Ident[4]? ≠ some 1 ∧ header.Shnum * 64 ≤ r.length ∧
      shs = (List.range header.Shnum).map (fun i => sectionHeaderAt64 order r (i * 64))) := by
  unfold readSectionHeaders at h
  simp only [EI_CLASS, sectionHeader32.size, SectionHeader.size, Nat.reduceAdd] at h
  split_ifs at h with hc
  · left
    split at h
    · cases h
    · rename_i sh32s heq
      have hlen := binaryRead_ok_length heq
      obtain ⟨l, hl, hmap⟩ := binaryRead_slice decoder.sectionHeader32 convertToSectionHeader
        (sectionHeaderAt32 order) 40 order r header.Shnum
        (fun buf off hb => decoder_sectionHeader32 order buf off hb)
        (fun m p hp => sectionHeaderAt32_take order r m p hp) hlen
      rw [heq] at hl
      cases hl
      simp only [Result.ok.injEq] at h
      exact ⟨hc, hlen, by rw [← h, hmap]⟩
  · right
    split at h
    · cases h
    · rename_i shs0 heq
      have hlen := binaryRead_ok_length heq
      obtain ⟨l, hl, hmap⟩ := binaryRead_slice decoder.SectionHeader id
        (sectionHeaderAt64 order) 64 order r header.Shnum
        (fun buf off hb => by rw [decoder_SectionHeader order buf off hb]; exact ⟨rfl, rfl⟩)
        (fun m p hp => sectionHeaderAt64_take order r m p hp) hlen
      rw [heq] at hl
      cases hl
      simp only [Result.ok.injEq] at h
      rw [List.map_id] at hmap
      exact ⟨hc, hlen, by rw [← h, hmap]⟩

theorem readSectionHeaders_short (r : List Byte) (order : ByteOrder) (header : ELFHeader)
    (h : r.length < header.Shnum * (if header.Ident[4]? = some 1 then 40 else 64)) :
    ∃ e, readSectionHeaders r order header = .error e := by
  unfold readSectionHeaders
  simp only [EI_CLASS, sectionHeader32.size, SectionHeader.size, Nat.reduceAdd]
  split_ifs with hc
  · rw [if_pos hc] at h
    obtain ⟨e, he⟩ := binaryRead_short r order _ (decoder.slice decoder.sectionHeader32 header.Shnum) h
    rw [he]; exact ⟨_, rfl⟩
  · rw [if_neg hc] at h
    obtain ⟨e, he⟩ := binaryRead_short r order _ (decoder.slice decoder.SectionHeader header.Shnum) h
    rw [he]; exact ⟨_, rfl⟩

theorem readProgramHeaders_eq_ok64 {r : List Byte} {order : ByteOrder} {header : ELFHeader}
    {phs : List ProgramHeader} (hc : header.Ident[4]? ≠ some 1)
    (h : readProgramHeaders r order header = .ok phs) :
    header.Phnum * 56 ≤ r.length ∧
      phs = (List.range header.Phnum).map (fun i => programHeaderAt64 order r (i * 56)) := by
  unfold readProgramHeaders at h
  simp only [EI_CLASS, programHeader32.size, ProgramHeader.size, Nat.reduceAdd] at h
  rw [if_neg hc] at h
  split at h
  · cases h
  · rename_i phs0 heq
    have hlen := binaryRead_ok_length heq
    obtain ⟨l, hl, hmap⟩ := binaryRead_slice decoder.ProgramHeader id
      (programHeaderAt64 order) 56 order r header.Phnum
      (fun buf off hb => by rw [decoder_ProgramHeader order buf off hb]; exact ⟨rfl, rfl⟩)
      (fun m p hp => programHeaderAt64_take order r m p hp) hlen
    rw [heq] at hl
    cases hl
    simp only [Result.ok.injEq] at h
    rw [List.map_id] at hmap
    exact ⟨hlen, by rw [← h, hmap]⟩

theorem readProgramHeaders_short (r : List Byte) (order : ByteOrder) (header : ELFHeader)
    (h : r.length < header.Phnum * (if header.Ident[4]? = some 1 then 32 else 56)) :
    ∃ e, readProgramHeaders r order header = .error e := by
  unfold readProgramHeaders
  simp only [EI_CLASS, programHeader32.size, ProgramHeader.size, Nat.reduceAdd]
  split_ifs with hc
  · rw [if_pos hc] at h
    obtain ⟨e, he⟩ := binaryRead_short r order _ (decoder.slice decoder.programHeader32 header.Phnum) h
    rw [he]; exact ⟨_, rfl⟩
  · rw [if_neg hc] at h
    obtain ⟨e, he⟩ := binaryRead_short r order _ (decoder.slice decoder.ProgramHeader header.Phnum) h
    rw [he]; exact ⟨_, rfl⟩

theorem bindSections_headers {raw spare : List Byte} {stroffset : Nat} :
    ∀ {shs : List SectionHeader} {ss : List Section},
      bindSections raw spare stroffset shs = .ok ss → ss.map Section.Header = shs
  | [], ss, h => by
    simp only [bindSections, Result.ok.injEq] at h
    subst h; rfl
  | sh :: rest, ss, h => by
    simp only [bindSections] at h
    split_ifs at h
    obtain ⟨index, -, h⟩ := Result.bind_eq_ok.1 h
    obtain ⟨n, -, h⟩ := Result.bind_eq_ok.1 h
    obtain ⟨sr, -, h⟩ := Result.bind_eq_ok.1 h
    obtain ⟨tl, htl, h⟩ := Result.bind_eq_ok.1 h
    simp only [Result.ok.injEq] at h
    subst h
    simp [bindSections_headers htl]

theorem bindSegments_headers {raw spare : List Byte} :
    ∀ {phs : List ProgramHeader} {sgs : List Segment},
      bindSegments raw spare phs = .ok sgs → sgs.map Segment.Header = phs
  | [], sgs, h => by
    simp only [bindSegments, Result.ok.injEq] at h
    subst h; rfl
  | ph :: rest, sgs, h => by
    simp only [bindSegments] at h
    obtain ⟨sgr, -, h⟩ := Result.bind_eq_ok.1 h
    obtain ⟨tl, htl, h⟩ := Result.bind_eq_ok.1 h
    simp only [Result.ok.injEq] at h
    subst h
    simp [bindSegments_headers htl]

/-- What a successful run of the section table builder went through. -/
theorem buildSections_eq_ok {raw spare : List Byte} {order : ByteOrder} {header : ELFHeader}
    {ss : List Section} (h : buildSections raw spare order header = .ok ss) :
    (header.Shnum = 0 ∧ ss = []) ∨
    (header.Shnum ≠ 0 ∧ header.Shoff < raw.length ∧ ∃ shs stroffset,
      readSectionHeaders (raw.drop header.Shoff) order header = .ok shs ∧
      stringTableOffset shs header.Shstrndx = .ok stroffset ∧
      bindSections raw spare stroffset shs = .ok ss) := by
  unfold buildSections at h
  split_ifs at h with h0 h1
  · left; simp only [Result.ok.injEq] at h; exact ⟨h0, h.symm⟩
  · right
    obtain ⟨shs, hshs, h⟩ := Result.bind_eq_ok.1 h
    obtain ⟨so, hso, h⟩ := Result.bind_eq_ok.1 h
    exact ⟨h0, by omega, shs, so, hshs, hso, h⟩

/-- What a successful run of the segment table builder went through. -/
theorem buildSegments_eq_ok {raw spare : List Byte} {order : ByteOrder} {header : ELFHeader}
    {sgs : List Segment} (h : buildSegments raw spare order header = .ok sgs) :
    (header.Phnum = 0 ∧ sgs = []) ∨
    (header.Phnum ≠ 0 ∧ header.Phoff < raw.length ∧ ∃ phs,
      readProgramHeaders (raw.drop header.Phoff) order header = .ok phs ∧
      bindSegments raw spare phs = .ok sgs) := by
  unfold buildSegments at h
  split_ifs at h with h0 h1
  · left; simp only [Result.ok.injEq] at h; exact ⟨h0, h.symm⟩
  · right
    obtain ⟨phs, hphs, h⟩ := Result.bind_eq_ok.1 h
    exact ⟨h0, by omega, phs, hphs, h⟩

theorem buildSections_error_of_overrun (raw spare : List Byte) (order : ByteOrder)
    (header : ELFHeader) (h0 : header.Shnum ≠ 0)
    (h : raw.length < header.Shoff + header.Shnum * (if header.Ident[4]? = some 1 then 40 else 64)) :
    ∃ e, buildSections raw spare order header = .error e := by
  unfold buildSections
  rw [if_neg h0]
  split_ifs with h1
  · exact ⟨_, rfl⟩
  · obtain ⟨e, he⟩ := readSectionHeaders_short (raw.drop header.Shoff) order header
      (by rw [List.length_drop]; omega)
    rw [he]; exact ⟨_, rfl⟩

theorem buildSegments_error_of_overrun (raw spare : List Byte) (order : ByteOrder)
    (header : ELFHeader) (h0 : header.Phnum ≠ 0)
    (h : raw.length < header.Phoff + header.Phnum * (if header.Ident[4]? = some 1 then 32 else 56)) :
    ∃ e, buildSegments raw spare order header = .error e := by
  unfold buildSegments
  rw [if_neg h0]
  split_ifs with h1
  · exact ⟨_, rfl⟩
  · obtain ⟨e, he⟩ := readProgramHeaders_short (raw.drop header.Phoff) order header
      (by rw [List.length_drop]; omega)
    rw [he]; exact ⟨_, rfl⟩

/-! ### Name resolution and content binding -/

theorem slice_eq_ok {raw spare : List Byte} {lo hi : Nat} {v : List Byte} :
    slice raw spare lo hi = .ok v ↔
      lo ≤ hi ∧ hi ≤ raw.length + spare.length ∧ v = ((raw ++ spare).drop lo).take (hi - lo) := by
  unfold slice
  split_ifs with h
  · simp only [Result.ok.injEq]
    exact ⟨fun hv => ⟨h.1, h.2, hv.symm⟩, fun hv => hv.2.2.symm⟩
  · constructor
    · intro hv; cases hv
    · intro hv; exact absurd ⟨hv.1, hv.2.1⟩ h

theorem take_drop_append (raw spare : List Byte) (lo n : Nat) (h : lo + n ≤ raw.length) :
    ((raw ++ spare).drop lo).take n = (raw.drop lo).take n := by
  rw [List.drop_append_of_le_length (by omega), List.take_append_of_le_length]
  rw [List.length_drop]; omega

/-- The terminator scan stops at the first zero byte of the bytes it is given. -/
theorem scanName_eq_ok {len : Nat} :
    ∀ (l : List Byte) (index q : Nat), scanName len l index = .ok q →
      ∃ k, q = index + k ∧ k < l.length ∧ l[k]? = some 0 ∧ ∀ j, j < k → l[j]? ≠ some 0
  | [], index, q, h => by simp [scanName] at h
  | b :: rest, index, q, h => by
    simp only [scanName] at h
    split_ifs at h with hb
    · obtain ⟨k, hq, hk, hz, hnz⟩ := scanName_eq_ok rest (index + 1) q h
      refine ⟨k + 1, by omega, by simp; omega, by simpa using hz, ?_⟩
      intro j hj
      cases j with
      | zero => simpa using hb
      | succ j => simpa using hnz j (by omega)
    · simp only [Result.ok.injEq] at h
      refine ⟨0, by omega, by simp, ?_, fun j hj => absurd hj (Nat.not_lt_zero j)⟩
      simp only [ne_eq, not_not] at hb
      simp [hb]

/-- What the loop of lines 184-202 has established for every section it bound. -/
theorem bindSections_bound {raw spare : List Byte} {stroffset : Nat} :
    ∀ {shs : List SectionHeader} {ss : List Section},
      bindSections raw spare stroffset shs = .ok ss →
      ∀ s ∈ ss,
        (stroffset + s.Header.Name) % 2 ^ 64 < raw.length ∧
        (∃ q, (stroffset + s.Header.Name) % 2 ^ 64 ≤ q ∧ q < raw.length ∧ raw[q]? = some 0 ∧
          (∀ k, (stroffset + s.Header.Name) % 2 ^ 64 ≤ k → k < q → raw[k]? ≠ some 0) ∧
          s.Name = (raw.drop ((stroffset + s.Header.Name) % 2 ^ 64)).take
            (q - (stroffset + s.Header.Name) % 2 ^ 64)) ∧
        s.Header.Offset ≤ (s.Header.Offset + s.Header.Size) % 2 ^ 64 ∧
        (s.Header.Offset + s.Header.Size) % 2 ^ 64 ≤ raw.length + spare.length ∧
        s.Raw = ((raw ++ spare).drop s.Header.Offset).take
          ((s.Header.Offset + s.Header.Size) % 2 ^ 64 - s.Header.Offset)
  | [], ss, h => by
    simp only [bindSections, Result.ok.injEq] at h
    subst h
    intro s hs; cases hs
  | sh :: rest, ss, h => by
    simp only [bindSections] at h
    split_ifs at h with hlt
    obtain ⟨index, hscan, h⟩ := Result.bind_eq_ok.1 h
    obtain ⟨n, hn, h⟩ := Result.bind_eq_ok.1 h
    obtain ⟨sr, hsr, h⟩ := Result.bind_eq_ok.1 h
    obtain ⟨tl, htl, h⟩ := Result.bind_eq_ok.1 h
    simp only [Result.ok.injEq] at h
    subst h
    intro s hs
    rcases List.mem_cons.1 hs with hhead | htail
    · subst hhead
      dsimp only
      generalize (stroffset + sh.Name) % 2 ^ 64 = p at hlt hscan hn ⊢
      obtain ⟨k, hq, hk, hz, hnz⟩ := scanName_eq_ok _ _ _ hscan
      rw [List.length_drop] at hk
      obtain ⟨-, -, hn⟩ := slice_eq_ok.1 hn
      obtain ⟨h1, h2, hsr⟩ := slice_eq_ok.1 hsr
      refine ⟨by omega, ⟨index, by omega, by omega, ?_, ?_, ?_⟩, h1, h2, hsr⟩
      · rw [List.getElem?_drop] at hz
        rw [hq]; exact hz
      · intro j hj1 hj2
        have hj := hnz (j - p) (by omega)
        rw [List.getElem?_drop] at hj
        rwa [show p + (j - p) = j by omega] at hj
      · rw [hn]
        exact take_drop_append raw spare _ _ (by omega)
    · exact bindSections_bound htl s htail

/-- What the loop of lines 232-239 has established for every segment it bound. -/
theorem bindSegments_bound {raw spare : List Byte} :
    ∀ {phs : List ProgramHeader} {sgs : List Segment},
      bindSegments raw spare phs = .ok sgs →
      ∀ sg ∈ sgs,
        sg.Header.Offset ≤ (sg.Header.Offset + sg.Header.Filesz) % 2 ^ 64 ∧
        (sg.Header.Offset + sg.Header.Filesz) % 2 ^ 64 ≤ raw.length + spare.length ∧
        sg.Raw = ((raw ++ spare).drop sg.Header.Offset).take
          ((sg.Header.Offset + sg.Header.Filesz) % 2 ^ 64 - sg.Header.Offset)
  | [], sgs, h => by
    simp only [bindSegments, Result.ok.injEq] at h
    subst h
    intro s hs; cases hs
  | ph :: rest, sgs, h => by
    simp only [bindSegments] at h
    obtain ⟨sgr, hsgr, h⟩ := Result.bind_eq_ok.1 h
    obtain ⟨tl, htl, h⟩ := Result.bind_eq_ok.1 h
    simp only [Result.ok.injEq] at h
    subst h
    intro s hs
    rcases List.mem_cons.1 hs with hhead | htail
    · subst hhead
      obtain ⟨h1, h2, hsr⟩ := slice_eq_ok.1 hsgr
      exact ⟨h1, h2, hsr⟩
    · exact bindSegments_bound htl s htail

/-- A range `[lo, (lo + size) % 2 ^ 64)` accepted by a slice expression did not
wrap around, for `size` a `uint64`. -/
theorem no_wrap_of_le {lo size : Nat} (hsize : size < 2 ^ 64)
    (h : lo ≤ (lo + size) % 2 ^ 64) : (lo + size) % 2 ^ 64 = lo + size := by
  by_contra hne
  have hge : 2 ^ 64 ≤ lo + size := by
    by_contra hlt
    exact hne (Nat.mod_eq_of_lt (by omega))
  have hlo : lo < 2 ^ 64 := by
    have := Nat.mod_lt (lo + size) (show 0 < 2 ^ 64 by norm_num)
    omega
  have : (lo + size) % 2 ^ 64 = lo + size - 2 ^ 64 := by
    rw [Nat.mod_eq_sub_mod hge, Nat.mod_eq_of_lt (by omega)]
  omega

theorem Uint32_lt (order : ByteOrder) (l : List Byte) : order.Uint32 l < 2 ^ 32 := by
  match order, l with
  | .LittleEndian, b0 :: b1 :: b2 :: b3 :: _ =>
    have h0 := b0.isLt; have h1 := b1.isLt; have h2 := b2.isLt; have h3 := b3.isLt
    simp only [ByteOrder.Uint32]; omega
  | .BigEndian, b0 :: b1 :: b2 :: b3 :: _ =>
    have h0 := b0.isLt; have h1 := b1.isLt; have h2 := b2.isLt; have h3 := b3.isLt
    simp only [ByteOrder.Uint32]; omega
  | .LittleEndian, [] | .LittleEndian, [_] | .LittleEndian, [_, _] | .LittleEndian, [_, _, _] =>
    simp [ByteOrder.Uint32]
  | .BigEndian, [] | .BigEndian, [_] | .BigEndian, [_, _] | .BigEndian, [_, _, _] =>
    simp [ByteOrder.Uint32]

theorem decoder_slice_length {α : Type} (elem : decoder → α × decoder) :
    ∀ (n : Nat) (d : decoder), (decoder.slice elem n d).1.length = n
  | 0, d => by simp [decoder.slice]
  | n + 1, d => by
    simp only [decoder.slice, List.length_cons]
    rw [decoder_slice_length elem n]

theorem decoder_slice_forall {α : Type} (elem : decoder → α × decoder) (P : α → Prop)
    (hP : ∀ d, P (elem d).1) :
    ∀ (n : Nat) (d : decoder), ∀ a ∈ (decoder.slice elem n d).1, P a
  | 0, d => by simp [decoder.slice]
  | n + 1, d => by
    intro a ha
    simp only [decoder.slice, List.mem_cons] at ha
    rcases ha with ha | ha
    · rw [ha]; exact hP d
    · exact decoder_slice_forall elem P hP n _ a ha

theorem binaryRead_slice_length {α : Type} {elem : decoder → α × decoder} {r : List Byte}
    {order : ByteOrder} {size n : Nat} {l : List α}
    (h : binaryRead r order size (decoder.slice elem n) = .ok l) : l.length = n := by
  unfold binaryRead at h
  split at h
  · cases h
  · simp only [Except.ok.injEq] at h
    rw [← h, decoder_slice_length]

theorem readSectionHeaders_length {r : List Byte} {order : ByteOrder} {header : ELFHeader}
    {shs : List SectionHeader} (h : readSectionHeaders r order header = .ok shs) :
    shs.length = header.Shnum := by
  rcases readSectionHeaders_eq_ok h with ⟨-, -, hs⟩ | ⟨-, -, hs⟩ <;> rw [hs] <;> simp

theorem readSectionHeaders_Name_lt {r : List Byte} {order : ByteOrder} {header : ELFHeader}
    {shs : List SectionHeader} (h : readSectionHeaders r order header = .ok shs) :
    ∀ sh ∈ shs, sh.Name < 2 ^ 32 := by
  intro sh hsh
  rcases readSectionHeaders_eq_ok h with ⟨-, -, hs⟩ | ⟨-, -, hs⟩ <;>
  · rw [hs] at hsh
    obtain ⟨i, -, hi⟩ := List.mem_map.1 hsh
    rw [← hi]
    exact uintAt_lt _ _ _ 4

theorem readSectionHeaders_Size_lt {r : List Byte} {order : ByteOrder} {header : ELFHeader}
    {shs : List SectionHeader} (h : readSectionHeaders r order header = .ok shs) :
    ∀ sh ∈ shs, sh.Size < 2 ^ 64 := by
  intro sh hsh
  rcases readSectionHeaders_eq_ok h with ⟨-, -, hs⟩ | ⟨-, -, hs⟩
  · rw [hs] at hsh
    obtain ⟨i, -, hi⟩ := List.mem_map.1 hsh
    rw [← hi]
    exact lt_trans (uintAt_lt _ _ _ 4) (by norm_num)
  · rw [hs] at hsh
    obtain ⟨i, -, hi⟩ := List.mem_map.1 hsh
    rw [← hi]
    exact uintAt_lt _ _ _ 8

theorem readProgramHeaders_length {r : List Byte} {order : ByteOrder} {header : ELFHeader}
    {phs : List ProgramHeader} (h : readProgramHeaders r order header = .ok phs) :
    phs.length = header.Phnum := by
  unfold readProgramHeaders at h
  split_ifs at h
  · split at h
    · cases h
    · rename_i l heq
      simp only [Result.ok.injEq] at h
      rw [← h, List.length_map, binaryRead_slice_length heq]
  · split at h
    · cases h
    · rename_i l heq
      simp only [Result.ok.injEq] at h
      rw [← h, binaryRead_slice_length heq]

theorem readProgramHeaders_Filesz_lt {r : List Byte} {order : ByteOrder} {header : ELFHeader}
    {phs : List ProgramHeader} (h : readProgramHeaders r order header = .ok phs) :
    ∀ ph ∈ phs, ph.Filesz < 2 ^ 64 := by
  intro ph hph
  by_cases hc : header.Ident[4]? = some 1
  · unfold readProgramHeaders binaryRead at h
    simp only [EI_CLASS] at h
    rw [if_pos hc] at h
    split at h
    · cases h
    · rename_i l heq
      split at heq
      · cases heq
      · simp only [Except.ok.injEq] at heq
        simp only [Result.ok.injEq] at h
        rw [← h, ← heq] at hph
        obtain ⟨p32, hp32, hp⟩ := List.mem_map.1 hph
        have hb := decoder_slice_forall decoder.programHeader32 (fun p => p.Filesz < 2 ^ 32)
          (fun d => Uint32_lt _ _) _ _ p32 hp32
        rw [← hp]
        exact lt_trans hb (by norm_num)
  · obtain ⟨-, hs⟩ := readProgramHeaders_eq_ok64 hc h
    rw [hs] at hph
    obtain ⟨i, -, hi⟩ := List.mem_map.1 hph
    rw [← hi]
    exact uintAt_lt _ _ _ 8

theorem stringTableOffset_eq_ok {shs : List SectionHeader} {shstrndx stroffset : Nat}
    (h : stringTableOffset shs shstrndx = .ok stroffset) :
    ∃ sh, shs[shstrndx]? = some sh ∧ sh.Offset = stroffset := by
  unfold stringTableOffset at h
  split at h
  · rename_i sh heq
    simp only [Result.ok.injEq] at h
    exact ⟨sh, heq, h⟩
  · cases h

theorem New_Shnum_lt {raw spare : List Byte} {f : ELFFile} (h : New raw spare = .ok f) :
    f.Header.Shnum < 2 ^ 16 ∧ f.Header.Phnum < 2 ^ 16 := by
  obtain ⟨cls, -, -, -, -, hh, -⟩ := New_eq_ok h
  rw [readHeader_eq_ok] at hh
  rcases hh with ⟨-, -, hh⟩ | ⟨-, -, hh⟩ <;> rw [hh] <;>
    exact ⟨uintAt_lt _ _ _ 2, uintAt_lt _ _ _ 2⟩

theorem New_sections_length {raw spare : List Byte} {f : ELFFile} (h : New raw spare = .ok f) :
    f.Sections.length = f.Header.Shnum := by
  obtain ⟨cls, -, -, -, -, -, hs, -⟩ := New_eq_ok h
  rcases buildSections_eq_ok hs with ⟨h0, hnil⟩ | ⟨-, -, shs, so, hread, -, hbind⟩
  · rw [hnil, h0]; rfl
  · rw [← List.length_map f.Sections Section.Header, bindSections_headers hbind,
      readSectionHeaders_length hread]

theorem New_segments_length {raw spare : List Byte} {f : ELFFile} (h : New raw spare = .ok f) :
    f.Segments.length = f.Header.Phnum := by
  obtain ⟨cls, -, -, -, -, -, -, hg, -⟩ := New_eq_ok h
  rcases buildSegments_eq_ok hg with ⟨h0, hnil⟩ | ⟨-, -, phs, hread, hbind⟩
  · rw [hnil, h0]; rfl
  · rw [← List.length_map f.Segments Segment.Header, bindSegments_headers hbind,
      readProgramHeaders_length hread]

/-- Every section of a model was bound by the loop of lines 184-202, with the
string table offset taken from the section at index `Shstrndx`. -/
theorem New_sections_bound {raw spare : List Byte} {f : ELFFile} (h : New raw spare = .ok f) :
    f.Sections = [] ∨ ∃ strsec, f.Sections[f.Header.Shstrndx]? = some strsec ∧
      ∀ s ∈ f.Sections,
        s.Header.Name < 2 ^ 32 ∧
        (strsec.Header.Offset + s.Header.Name) % 2 ^ 64 < raw.length ∧
        (∃ q, (strsec.Header.Offset + s.Header.Name) % 2 ^ 64 ≤ q ∧ q < raw.length ∧
          raw[q]? = some 0 ∧
          (∀ k, (strsec.Header.Offset + s.Header.Name) % 2 ^ 64 ≤ k → k < q →
            raw[k]? ≠ some 0) ∧
          s.Name = (raw.drop ((strsec.Header.Offset + s.Header.Name) % 2 ^ 64)).take
            (q - (strsec.Header.Offset + s.Header.Name) % 2 ^ 64)) ∧
        s.Header.Offset ≤ (s.Header.Offset + s.Header.Size) % 2 ^ 64 ∧
        (s.Header.Offset + s.Header.Size) % 2 ^ 64 ≤ raw.length + spare.length ∧
        s.Raw = ((raw ++ spare).drop s.Header.Offset).take
          ((s.Header.Offset + s.Header.Size) % 2 ^ 64 - s.Header.Offset) := by
  obtain ⟨cls, -, -, -, -, -, hs, -⟩ := New_eq_ok h
  rcases buildSections_eq_ok hs with ⟨-, hnil⟩ | ⟨-, -, shs, so, hread, hso, hbind⟩
  · exact Or.inl hnil
  · right
    have hmap := bindSections_headers hbind
    obtain ⟨sh, hsh, hoff⟩ := stringTableOffset_eq_ok hso
    rw [← hmap, List.getElem?_map] at hsh
    cases hstr : f.Sections[f.Header.Shstrndx]? with
    | none => rw [hstr] at hsh; cases hsh
    | some strsec =>
      rw [hstr] at hsh
      have hoff2 : strsec.Header.Offset = so := by
        rw [← hoff, ← Option.some.inj hsh]
      refine ⟨strsec, rfl, ?_⟩
      intro s hsmem
      rw [hoff2]
      refine ⟨?_, bindSections_bound hbind s hsmem⟩
      apply readSectionHeaders_Name_lt hread
      rw [← hmap]
      exact List.mem_map_of_mem _ hsmem

/-- Every segment of a model was bound by the loop of lines 232-239. -/
theorem New_segments_bound {raw spare : List Byte} {f : ELFFile} (h : New raw spare = .ok f) :
    ∀ sg ∈ f.Segments,
      sg.Header.Offset ≤ (sg.Header.Offset + sg.Header.Filesz) % 2 ^ 64 ∧
      (sg.Header.Offset + sg.Header.Filesz) % 2 ^ 64 ≤ raw.length + spare.length ∧
      sg.Raw = ((raw ++ spare).drop sg.Header.Offset).take
        ((sg.Header.Offset + sg.Header.Filesz) % 2 ^ 64 - sg.Header.Offset) := by
  obtain ⟨cls, -, -, -, -, -, -, hg, -⟩ := New_eq_ok h
  rcases buildSegments_eq_ok hg with ⟨-, hnil⟩ | ⟨-, -, phs, -, hbind⟩
  · rw [hnil]; intro sg hsg; cases hsg
  · exact bindSegments_bound hbind

theorem New_section_Size_lt {raw spare : List Byte} {f : ELFFile} (h : New raw spare = .ok f) :
    ∀ s ∈ f.Sections, s.Header.Size < 2 ^ 64 := by
  obtain ⟨cls, -, -, -, -, -, hs, -⟩ := New_eq_ok h
  rcases buildSections_eq_ok hs with ⟨-, hnil⟩ | ⟨-, -, shs, so, hread, -, hbind⟩
  · rw [hnil]; intro s hs; cases hs
  · intro s hsmem
    apply readSectionHeaders_Size_lt hread
    rw [← bindSections_headers hbind]
    exact List.mem_map_of_mem _ hsmem

theorem New_segment_Filesz_lt {raw spare : List Byte} {f : ELFFile} (h : New raw spare = .ok f) :
    ∀ sg ∈ f.Segments, sg.Header.Filesz < 2 ^ 64 := by
  obtain ⟨cls, -, -, -, -, -, -, hg, -⟩ := New_eq_ok h
  rcases buildSegments_eq_ok hg with ⟨-, hnil⟩ | ⟨-, -, phs, hread, hbind⟩
  · rw [hnil]; intro s hs; cases hs
  · intro s hsmem
    apply readProgramHeaders_Filesz_lt hread
    rw [← bindSegments_headers hbind]
    exact List.mem_map_of_mem _ hsmem

/-- The content view of every section of a model: no wrap-around, inside the
capacity of the buffer, `Size` bytes read from the backing array at `Offset`. -/
theorem New_section_content {raw spare : List Byte} {f : ELFFile} (h : New raw spare = .ok f) :
    ∀ s ∈ f.Sections,
      s.Header.Offset + s.Header.Size < 2 ^ 64 ∧
      s.Header.Offset + s.Header.Size ≤ raw.length + spare.length ∧
      s.Raw = ((raw ++ spare).drop s.Header.Offset).take s.Header.Size ∧
      s.Raw.length = s.Header.Size := by
  intro s hs
  rcases New_sections_bound h with hnil | ⟨strsec, -, hb⟩
  · rw [hnil] at hs; cases hs
  · obtain ⟨-, -, -, h1, h2, h3⟩ := hb s hs
    have hw := no_wrap_of_le (New_section_Size_lt h s hs) h1
    rw [hw] at h2 h3
    rw [Nat.add_sub_cancel_left] at h3
    refine ⟨?_, h2, h3, ?_⟩
    · rw [← hw]; exact Nat.mod_lt _ (by norm_num)
    · rw [h3, List.length_take, List.length_drop, List.length_append]; omega

/-- The content view of every segment of a model. -/
theorem New_segment_content {raw spare : List Byte} {f : ELFFile} (h : New raw spare = .ok f) :
    ∀ sg ∈ f.Segments,
      sg.Header.Offset + sg.Header.Filesz < 2 ^ 64 ∧
      sg.Header.Offset + sg.Header.Filesz ≤ raw.length + spare.length ∧
      sg.Raw = ((raw ++ spare).drop sg.Header.Offset).take sg.Header.Filesz ∧
      sg.Raw.length = sg.Header.Filesz := by
  intro sg hs
  obtain ⟨h1, h2, h3⟩ := New_segments_bound h sg hs
  have hw := no_wrap_of_le (New_segment_Filesz_lt h sg hs) h1
  rw [hw] at h2 h3
  rw [Nat.add_sub_cancel_left] at h3
  refine ⟨?_, h2, h3, ?_⟩
  · rw [← hw]; exact Nat.mod_lt _ (by norm_num)
  · rw [h3, List.length_take, List.length_drop, List.length_append]; omega

/-- The section header of the entry at index `i` of a model is the record at
`Shoff + i * 40` (class 1) or `Shoff + i * 64` (otherwise). -/
theorem New_section_header_at {raw spare : List Byte} {f : ELFFile} (h : New raw spare = .ok f)
    (i : Nat) (hi : i < f.Sections.length) :
    ∃ s, f.Sections[i]? = some s ∧
      s.Header = if raw[4]? = some 1
        then sectionHeaderAt32 f.Endianness raw (f.Header.Shoff + i * 40)
        else sectionHeaderAt64 f.Endianness raw (f.Header.Shoff + i * 64) := by
  have hcls := New_Ident_class h
  have hlen := New_sections_length h
  obtain ⟨cls, -, -, -, -, -, hs, -⟩ := New_eq_ok h
  rcases buildSections_eq_ok hs with ⟨-, hnil⟩ | ⟨-, -, shs, so, hread, -, hbind⟩
  · rw [hnil] at hi; exact absurd hi (Nat.not_lt_zero i)
  · have hmap := bindSections_headers hbind
    refine ⟨f.Sections[i], List.getElem?_eq_getElem hi, ?_⟩
    have hget : shs[i]? = some (f.Sections[i]).Header := by
      rw [← hmap, List.getElem?_map, List.getElem?_eq_getElem hi]; rfl
    rw [hlen] at hi
    rcases readSectionHeaders_eq_ok hread with ⟨h1, -, hshs⟩ | ⟨h1, -, hshs⟩
    · rw [hcls] at h1
      rw [if_pos h1]
      rw [hshs, getElem?_map_range _ _ _ hi, sectionHeaderAt32_drop] at hget
      exact (Option.some.inj hget).symm
    · rw [hcls] at h1
      rw [if_neg h1]
      rw [hshs, getElem?_map_range _ _ _ hi, sectionHeaderAt64_drop] at hget
      exact (Option.some.inj hget).symm

/-- In a model the string table index designates an entry of the table. -/
theorem New_Shstrndx_lt {raw spare : List Byte} {f : ELFFile} (h : New raw spare = .ok f)
    (hne : f.Header.Shnum ≠ 0) :
    f.Header.Shstrndx < f.Header.Shnum ∧ ∃ s, f.Sections[f.Header.Shstrndx]? = some s := by
  have hlen := New_sections_length h
  rcases New_sections_bound h with hnil | ⟨strsec, hstr, -⟩
  · rw [hnil] at hlen
    exact absurd hlen.symm hne
  · refine ⟨?_, strsec, hstr⟩
    rw [← hlen]
    by_contra hge
    rw [List.getElem?_eq_none (by omega)] at hstr
    cases hstr

/-- With valid identification and a complete header, the header of a model is the
header of the buffer. -/
theorem New_Header_of_valid {raw spare : List Byte} {cls : Byte} {order : ByteOrder}
    {f : ELFFile} (hid : ValidIdent raw cls order) (hlen : headerSize cls ≤ raw.length)
    (h : New raw spare = .ok f) : f.Header = headerAt cls order raw := by
  rw [New_of_valid spare hid hlen] at h
  obtain ⟨sections, -, h⟩ := Result.bind_eq_ok.1 h
  obtain ⟨segments, -, h⟩ := Result.bind_eq_ok.1 h
  simp only [Result.ok.injEq] at h
  rw [← h]

/-! ### Query surface -/

theorem SectionByName_loop_some {name : List Byte} :
    ∀ {l : List Section} {s : Section}, ELFFile.SectionByName.loop name l = some s →
      ∃ i : Nat, l[i]? = some s ∧ s.Name = name ∧
        ∀ j : Nat, j < i → ∀ t : Section, l[j]? = some t → t.Name ≠ name
  | [], s, h => by simp [ELFFile.SectionByName.loop] at h
  | a :: rest, s, h => by
    simp only [ELFFile.SectionByName.loop] at h
    split_ifs at h with ha
    · simp only [Option.some.injEq] at h
      subst h
      exact ⟨0, List.getElem?_cons_zero, ha, fun j hj => absurd hj (Nat.not_lt_zero j)⟩
    · obtain ⟨i, hi, hn, hleast⟩ := SectionByName_loop_some h
      refine ⟨i + 1, by rw [List.getElem?_cons_succ]; exact hi, hn, ?_⟩
      intro j hj t ht
      cases j with
      | zero =>
        simp only [List.getElem?_cons_zero, Option.some.injEq] at ht
        rw [← ht]; exact ha
      | succ j =>
        rw [List.getElem?_cons_succ] at ht
        exact hleast j (by omega) t ht

theorem SectionByName_loop_none {name : List Byte} :
    ∀ {l : List Section}, ELFFile.SectionByName.loop name l = none →
      ∀ s ∈ l, s.Name ≠ name
  | [], _, s, hs => by cases hs
  | a :: rest, h, s, hs => by
    simp only [ELFFile.SectionByName.loop] at h
    split_ifs at h with ha
    rcases List.mem_cons.1 hs with hhead | htail
    · rw [hhead]; exact ha
    · exact SectionByName_loop_none h s htail

/-- Appending the matching entries one by one builds the filtered list. -/
theorem foldl_append_eq_filter {α : Type} (p : α → Prop) [DecidablePred p] :
    ∀ (l init : List α),
      l.foldl (fun acc a => if p a then acc ++ [a] else acc) init
        = init ++ l.filter (fun a => decide (p a))
  | [], init => by simp
  | a :: rest, init => by
    simp only [List.foldl_cons]
    rw [foldl_append_eq_filter p rest]
    by_cases ha : p a
    · simp [ha, List.filter_cons]
    · simp [ha, List.filter_cons]

/-! ## The claims -/

set_option maxRecDepth 100000

/-- C1: `New` is to return a model or an error on every buffer, never indexing or
slicing outside the buffer. On `sampleSegmentOverrun`, a complete 64-bit header
followed by one program header whose `Filesz` is 0x1000, the slice expression of
line 233 is out of range: `New` stops with a panic, it returns neither a model nor
an error. -/
theorem New_panics_on_segment_overrun :
    New sampleSegmentOverrun [] = .panic (.sliceBoundsOutOfRange 0 4096 120) := by
  decide

/-- C2: identification validation. `New` returns an error (and no model) when the
buffer is shorter than 4 bytes or its first 4 bytes differ from `7F 45 4C 46`; on a
buffer of at least 6 bytes that starts with the magic it returns an error when byte 4
(class) is not 1 or 2 or byte 5 (data encoding) is not 1 or 2; and whenever it
returns a model, `Endianness` is little-endian exactly when byte 5 is 1 and
big-endian exactly when byte 5 is 2. -/
theorem New_identification (raw spare : List Byte) :
    ((raw.length < 4 ∨ raw.take 4 ≠ [0x7F, 0x45, 0x4C, 0x46]) →
        ∃ e, New raw spare = .error e) ∧
    (6 ≤ raw.length → raw.take 4 = [0x7F, 0x45, 0x4C, 0x46] →
        ((raw[4]? ≠ some 1 ∧ raw[4]? ≠ some 2) ∨ (raw[5]? ≠ some 1 ∧ raw[5]? ≠ some 2)) →
        ∃ e, New raw spare = .error e) ∧
    (∀ f, New raw spare = .ok f →
        (f.Endianness = .LittleEndian ↔ raw[5]? = some 1) ∧
        (f.Endianness = .BigEndian ↔ raw[5]? = some 2)) := by
  refine ⟨?_, ?_, ?_⟩
  · rintro (h | h)
    · exact New_error_of_short h
    · exact New_error_of_magic h
  · intro h6 hm hbad
    have e4 : raw[4]? = some (raw[4]) := List.getElem?_eq_getElem (by omega)
    have e5 : raw[5]? = some (raw[5]) := List.getElem?_eq_getElem (by omega)
    have h4i : index raw EI_CLASS = .ok (raw[4]) := index_eq_ok.2 e4
    have h5i : index raw EI_DATA = .ok (raw[5]) := index_eq_ok.2 e5
    rw [e4, e5] at hbad
    simp only [ne_eq, Option.some.injEq] at hbad
    unfold New
    rw [if_neg (by simp [MAGIC_SIZE]; omega), if_neg (by simp [MAGIC_SIZE, ELF_MAGIC, hm])]
    by_cases hd : raw[5] = 1 ∨ raw[5] = 2
    · have hc : raw[4] ≠ 1 ∧ raw[4] ≠ 2 := by
        rcases hbad with hb | hb
        · exact hb
        · rcases hd with hd | hd
          · exact absurd hd hb.1
          · exact absurd hd hb.2
      have ho : ∃ order, endiannessOf raw = .ok order := by
        rcases hd with hd | hd
        · exact ⟨.LittleEndian, endiannessOf_eq_ok.2 (by rw [e5, hd]; rfl)⟩
        · exact ⟨.BigEndian, endiannessOf_eq_ok.2 (by rw [e5, hd]; rfl)⟩
      obtain ⟨order, ho⟩ := ho
      rw [ho]
      simp only [Result.bind, h4i]
      rw [if_pos hc]
      exact ⟨_, rfl⟩
    · have hd1 : raw[5] ≠ 1 := fun h => hd (Or.inl h)
      have hd2 : raw[5] ≠ 2 := fun h => hd (Or.inr h)
      unfold endiannessOf
      simp only [Result.bind, h5i]
      rw [if_pos hd1, if_pos hd2]
      exact ⟨_, rfl⟩
  · intro f hf
    obtain ⟨cls, -, -, -, h5, -⟩ := New_eq_ok hf
    rw [h5]
    cases f.Endianness <;> simp [ByteOrder.code]

theorem New_identification_witness :
    (∃ e, New [0x7F, 0x45] [] = .error e) ∧
    (∃ e, New [0x7F, 0x45, 0x4C, 0x46, 0x03, 0x01] [] = .error e) ∧
    ((sample64File.Endianness = .LittleEndian ↔ sample64[5]? = some 1) ∧
      (sample64File.Endianness = .BigEndian ↔ sample64[5]? = some 2)) :=
  ⟨(New_identification [0x7F, 0x45] []).1 (Or.inl (by decide)),
   (New_identification [0x7F, 0x45, 0x4C, 0x46, 0x03, 0x01] []).2.1 (by decide) (by decide)
     (Or.inl (by decide)),
   (New_identification sample64 []).2.2 sample64File (by decide)⟩

/-- C3: every buffer shorter than 16 bytes is to be rejected with an error. On the
4-byte buffer `7F 45 4C 46` and on the 5-byte buffer `7F 45 4C 46 02`, which pass
the length check of line 112 and the magic check, the index expression
`raw[EI_DATA]` of line 121 is out of range: `New` stops with a panic instead of
returning an error. -/
theorem New_panics_on_magic_only :
    New [0x7F, 0x45, 0x4C, 0x46] [] = .panic (.indexOutOfRange 5 4) ∧
    New [0x7F, 0x45, 0x4C, 0x46, 0x02] [] = .panic (.indexOutOfRange 5 5) := by
  decide

/-- C4: on a buffer of at least 6 bytes with valid magic, class and data-encoding
bytes that is shorter than the file-header record of its class (52 bytes for class
1, 64 for class 2), `New` returns an error and no model: the error of the header
read, an unexpected end of input. -/
theorem New_truncated_header (raw spare : List Byte) (cls data : Byte)
    (hlen : 6 ≤ raw.length) (hmagic : raw.take 4 = [0x7F, 0x45, 0x4C, 0x46])
    (hcls : raw[4]? = some cls) (hclass : cls = 1 ∨ cls = 2)
    (hdata : raw[5]? = some data) (hencoding : data = 1 ∨ data = 2)
    (hshort : raw.length < (if cls = 1 then 52 else 64)) :
    New raw spare = .error (.readElfHeader .ErrUnexpectedEOF) := by
  have ho : ∃ order, endiannessOf raw = .ok order := by
    rcases hencoding with hd | hd
    · exact ⟨.LittleEndian, endiannessOf_eq_ok.2 (by rw [hdata, hd]; rfl)⟩
    · exact ⟨.BigEndian, endiannessOf_eq_ok.2 (by rw [hdata, hd]; rfl)⟩
  obtain ⟨order, ho⟩ := ho
  have h4i : index raw EI_CLASS = .ok cls := index_eq_ok.2 hcls
  unfold New
  rw [if_neg (by simp [MAGIC_SIZE]; omega), if_neg (by simp [MAGIC_SIZE, ELF_MAGIC, hmagic]), ho]
  simp only [Result.bind, h4i]
  rw [if_neg (by rcases hclass with hc | hc <;> simp [hc])]
  have hne : raw.length ≠ 0 := by omega
  rcases hclass with hc | hc
  · subst hc
    simp only [if_true] at hshort
    simp [readHeader, binaryRead, readFull, elfHeader32.size, Nat.not_le.2 hshort, hne]
  · subst hc
    simp only [show ((2 : Byte) = 1) = False by decide, if_false] at hshort
    simp [readHeader, binaryRead, readFull, ELFHeader.size, Nat.not_le.2 hshort, hne]

theorem New_truncated_header_witness :
    New [0x7F, 0x45, 0x4C, 0x46, 0x02, 0x01, 0x01, 0x00] []
      = .error (.readElfHeader .ErrUnexpectedEOF) :=
  New_truncated_header [0x7F, 0x45, 0x4C, 0x46, 0x02, 0x01, 0x01, 0x00] [] 2 1
    (by decide) (by decide) (by decide) (by decide) (by decide) (by decide) (by decide)

/-- C5: whenever `New` returns a model, `Header.Ident` is the first 16 bytes of the
buffer and every other header field is the unsigned integer stored at its fixed
on-disk position, decoded in the detected byte order: the layout `headerAt64` for
class 2 and the layout `headerAt32` for class 1, where `Entry`, `Phoff` and `Shoff`
are zero-extended 4-byte values, each below `2^32`. -/
theorem New_header_fields (raw spare : List Byte) (f : ELFFile) (h : New raw spare = .ok f) :
    f.Header.Ident = raw.take 16 ∧
    (raw[4]? = some 2 → f.Header = headerAt64 f.Endianness raw) ∧
    (raw[4]? = some 1 → f.Header = headerAt32 f.Endianness raw ∧
      f.Header.Entry < 2 ^ 32 ∧ f.Header.Phoff < 2 ^ 32 ∧ f.Header.Shoff < 2 ^ 32) := by
  obtain ⟨cls, -, h4, -, -, hh, -⟩ := New_eq_ok h
  rw [readHeader_eq_ok] at hh
  rcases hh with ⟨hc, -, hh⟩ | ⟨hc, -, hh⟩
  · subst hc
    refine ⟨by rw [hh]; rfl, ?_, ?_⟩
    · intro h2; rw [h4] at h2; exact absurd h2 (by decide)
    · intro _
      refine ⟨hh, ?_, ?_, ?_⟩ <;> rw [hh] <;> exact uintAt_lt _ _ _ 4
  · refine ⟨by rw [hh]; rfl, fun _ => hh, ?_⟩
    intro h1; rw [h4] at h1
    exact absurd (Option.some.inj h1) hc

theorem New_header_fields_witness :
    sample64File.Header = headerAt64 sample64File.Endianness sample64 ∧
    (sample32File.Header = headerAt32 sample32File.Endianness sample32 ∧
      sample32File.Header.Entry < 2 ^ 32 ∧ sample32File.Header.Phoff < 2 ^ 32 ∧
      sample32File.Header.Shoff < 2 ^ 32) :=
  ⟨(New_header_fields sample64 [] sample64File (by decide)).2.1 (by decide),
   (New_header_fields sample32 [] sample32File (by decide)).2.2 (by decide)⟩

/-- C6: on a buffer with valid identification bytes that is at least as long as the
file-header record of its class and whose header has `Shnum = 0` and `Phnum = 0`,
`New` succeeds whatever the other header fields are; `Sections` and `Segments` are
both empty and `Header.Type`, `Header.Machine` are the values encoded at bytes 16-17
and 18-19. -/
theorem New_empty_tables (raw spare : List Byte) (cls : Byte) (order : ByteOrder)
    (hid : ValidIdent raw cls order) (hlen : headerSize cls ≤ raw.length)
    (hshnum : (headerAt cls order raw).Shnum = 0)
    (hphnum : (headerAt cls order raw).Phnum = 0) :
    ∃ f, New raw spare = .ok f ∧ f.Sections = [] ∧ f.Segments = [] ∧
      f.Header = headerAt cls order raw ∧
      f.Header.Type_ = uintAt order raw 16 2 ∧ f.Header.Machine = uintAt order raw 18 2 := by
  refine ⟨{ Header := headerAt cls order raw, Sections := [], Segments := [],
            Endianness := order, Raw := raw }, ?_, rfl, rfl, rfl, ?_, ?_⟩
  · rw [New_of_valid spare hid hlen]
    simp [buildSections, buildSegments, hshnum, hphnum, Result.bind]
  · simp only [headerAt]; split_ifs <;> rfl
  · simp only [headerAt]; split_ifs <;> rfl

theorem New_empty_tables_witness :
    ∃ f, New sampleBare [] = .ok f ∧ f.Sections = [] ∧ f.Segments = [] ∧
      f.Header = headerAt 2 .LittleEndian sampleBare ∧
      f.Header.Type_ = uintAt .LittleEndian sampleBare 16 2 ∧
      f.Header.Machine = uintAt .LittleEndian sampleBare 18 2 :=
  New_empty_tables sampleBare [] 2 .LittleEndian
    ⟨by decide, by decide, Or.inr rfl, by decide⟩ (by decide) (by decide) (by decide)

/-- C7: a header table that does not fit inside the buffer is rejected with an
error. With valid identification and a complete file header: if `Shnum` is not 0 and
`Shoff + Shnum * R` exceeds the buffer length (`R` = 64 for class 2, 40 for class 1),
`New` returns an error; and if the section table is built without failure, `Phnum`
is not 0 and `Phoff + Phnum * P` exceeds the buffer length (`P` = 56 for class 2,
32 for class 1), `New` returns an error. In both cases the result is an error, not a
model with fewer entries. -/
theorem New_rejects_table_overrun (raw spare : List Byte) (cls : Byte) (order : ByteOrder)
    (hid : ValidIdent raw cls order) (hlen : headerSize cls ≤ raw.length) :
    ((headerAt cls order raw).Shnum ≠ 0 →
      raw.length < (headerAt cls order raw).Shoff
        + (headerAt cls order raw).Shnum * (if cls = 1 then 40 else 64) →
      ∃ e, New raw spare = .error e) ∧
    ((∃ sections, buildSections raw spare order (headerAt cls order raw) = .ok sections) →
      (headerAt cls order raw).Phnum ≠ 0 →
      raw.length < (headerAt cls order raw).Phoff
        + (headerAt cls order raw).Phnum * (if cls = 1 then 32 else 56) →
      ∃ e, New raw spare = .error e) := by
  have hcls := headerAt_Ident_class order hid.2.1
  have hiff : ((headerAt cls order raw).Ident[4]? = some 1) ↔ cls = 1 := by
    rw [hcls]; exact ⟨fun h => Option.some.inj h, fun h => by rw [h]⟩
  rw [New_of_valid spare hid hlen]
  constructor
  · intro h0 hover
    obtain ⟨e, he⟩ := buildSections_error_of_overrun raw spare order _ h0
      (by simpa only [hiff] using hover)
    rw [he]; exact ⟨_, rfl⟩
  · rintro ⟨sections, hs⟩ h0 hover
    obtain ⟨e, he⟩ := buildSegments_error_of_overrun raw spare order _ h0
      (by simpa only [hiff] using hover)
    rw [hs, Result.bind, he]; exact ⟨_, rfl⟩

theorem New_rejects_table_overrun_witness :
    (∃ e, New sampleSectionTableCut [] = .error e) ∧
    (∃ e, New sampleSegmentTableCut [] = .error e) :=
  ⟨(New_rejects_table_overrun sampleSectionTableCut [] 2 .LittleEndian
      ⟨by decide, by decide, Or.inr rfl, by decide⟩ (by decide)).1 (by decide) (by decide),
   (New_rejects_table_overrun sampleSegmentTableCut [] 2 .LittleEndian
      ⟨by decide, by decide, Or.inr rfl, by decide⟩ (by decide)).2
      ⟨[], by decide⟩ (by decide) (by decide)⟩

/-- C8: whenever `New` returns a model, `len(Sections)` equals `Header.Shnum` and,
for every `i < Shnum`, `Sections[i].Header` is the decoding in the detected byte
order of the record at `Shoff + i * 64` in the class-2 layout, or at `Shoff + i * 40`
in the class-1 layout with `Flags`, `Addr`, `Offset`, `Size`, `Addralign` and
`EntSize` zero-extended (each below `2^32`). The stride is 64 or 40 whatever
`Header.Shentsize` holds, and table order is kept. -/
theorem New_sections_decode (raw spare : List Byte) (f : ELFFile)
    (h : New raw spare = .ok f) :
    f.Sections.length = f.Header.Shnum ∧
    ∀ i, i < f.Header.Shnum → ∃ s, f.Sections[i]? = some s ∧
      (raw[4]? = some 2 →
        s.Header = sectionHeaderAt64 f.Endianness raw (f.Header.Shoff + i * 64)) ∧
      (raw[4]? = some 1 →
        s.Header = sectionHeaderAt32 f.Endianness raw (f.Header.Shoff + i * 40) ∧
        s.Header.Flags < 2 ^ 32 ∧ s.Header.Addr < 2 ^ 32 ∧ s.Header.Offset < 2 ^ 32 ∧
        s.Header.Size < 2 ^ 32 ∧ s.Header.Addralign < 2 ^ 32 ∧ s.Header.EntSize < 2 ^ 32) := by
  have hcls := New_Ident_class h
  obtain ⟨cls, -, h4, hc, -, -, hs, -⟩ := New_eq_ok h
  rcases buildSections_eq_ok hs with ⟨h0, hnil⟩ | ⟨-, -, shs, so, hread, -, hbind⟩
  · rw [hnil, h0]
    exact ⟨rfl, fun i hi => absurd hi (Nat.not_lt_zero i)⟩
  · have hmap := bindSections_headers hbind
    have hget : ∀ i, i < f.Header.Shnum → ∀ hd, shs[i]? = some hd →
        ∃ s, f.Sections[i]? = some s ∧ s.Header = hd := by
      intro i _ hd hi
      rw [← hmap, List.getElem?_map] at hi
      cases hsi : f.Sections[i]? with
      | none => rw [hsi] at hi; cases hi
      | some s =>
        rw [hsi] at hi
        exact ⟨s, rfl, Option.some.inj hi⟩
    rcases readSectionHeaders_eq_ok hread with ⟨h1, -, hshs⟩ | ⟨h1, -, hshs⟩
    · constructor
      · rw [← List.length_map f.Sections Section.Header, hmap, hshs]; simp
      · intro i hi
        obtain ⟨s, hs1, hs2⟩ := hget i hi _ (by rw [hshs]; exact getElem?_map_range _ _ _ hi)
        rw [sectionHeaderAt32_drop] at hs2
        refine ⟨s, hs1, ?_, ?_⟩
        · intro h2; rw [hcls, h2] at h1; exact absurd h1 (by decide)
        · intro _
          refine ⟨hs2, ?_, ?_, ?_, ?_, ?_, ?_⟩ <;> rw [hs2] <;> exact uintAt_lt _ _ _ 4
    · constructor
      · rw [← List.length_map f.Sections Section.Header, hmap, hshs]; simp
      · intro i hi
        obtain ⟨s, hs1, hs2⟩ := hget i hi _ (by rw [hshs]; exact getElem?_map_range _ _ _ hi)
        rw [sectionHeaderAt64_drop] at hs2
        refine ⟨s, hs1, fun _ => hs2, ?_⟩
        intro hone; rw [hcls] at h1; exact absurd hone h1

theorem New_sections_decode_witness :
    sample64File.Sections.length = sample64File.Header.Shnum ∧
    (sample64File.Sections.map Section.Header)[1]?
      = some (sectionHeaderAt64 .LittleEndian sample64 (120 + 1 * 64)) ∧
    (sample32File.Sections.map Section.Header)[1]?
      = some (sectionHeaderAt32 .BigEndian sample32 (52 + 1 * 40)) := by
  have h64 := New_sections_decode sample64 [] sample64File (by decide)
  have h32 := New_sections_decode sample32 [] sample32File (by decide)
  refine ⟨h64.1, ?_, ?_⟩
  · obtain ⟨s, hs, hdec, -⟩ := h64.2 1 (by decide)
    rw [List.getElem?_map, hs, Option.map_some', hdec (by decide)]
    rfl
  · obtain ⟨s, hs, -, hdec⟩ := h32.2 1 (by decide)
    rw [List.getElem?_map, hs, Option.map_some', (hdec (by decide)).1]
    rfl

/-- C9: whenever `New` returns a model for a class-2 buffer, `len(Segments)` equals
`Header.Phnum` and, for every `i < Phnum`, `Segments[i].Header` is the decoding in
the detected byte order of the 56-byte record at `Phoff + i * 56`, with Type@0 and
Flags@4 as 4-byte fields and Offset@8, Vaddr@16, Paddr@24, Filesz@32, Memsz@40,
Align@48 as 8-byte fields, in on-disk table order. -/
theorem New_segments_decode64 (raw spare : List Byte) (f : ELFFile)
    (h : New raw spare = .ok f) (hclass : raw[4]? = some 2) :
    f.Segments.length = f.Header.Phnum ∧
    ∀ i, i < f.Header.Phnum → ∃ s, f.Segments[i]? = some s ∧
      s.Header = programHeaderAt64 f.Endianness raw (f.Header.Phoff + i * 56) := by
  have hcls := New_Ident_class h
  have hne : f.Header.Ident[4]? ≠ some 1 := by rw [hcls, hclass]; decide
  obtain ⟨cls, -, h4, hc, -, -, -, hg, -⟩ := New_eq_ok h
  rcases buildSegments_eq_ok hg with ⟨h0, hnil⟩ | ⟨-, -, phs, hread, hbind⟩
  · rw [hnil, h0]
    exact ⟨rfl, fun i hi => absurd hi (Nat.not_lt_zero i)⟩
  · have hmap := bindSegments_headers hbind
    obtain ⟨-, hphs⟩ := readProgramHeaders_eq_ok64 hne hread
    constructor
    · rw [← List.length_map f.Segments Segment.Header, hmap, hphs]; simp
    · intro i hi
      have hi2 : phs[i]? = some (programHeaderAt64 f.Endianness (raw.drop f.Header.Phoff) (i * 56)) := by
        rw [hphs]; exact getElem?_map_range _ _ _ hi
      rw [← hmap, List.getElem?_map] at hi2
      cases hsi : f.Segments[i]? with
      | none => rw [hsi] at hi2; cases hi2
      | some s =>
        rw [hsi] at hi2
        refine ⟨s, rfl, ?_⟩
        rw [← programHeaderAt64_drop]
        exact Option.some.inj hi2

theorem New_segments_decode64_witness :
    sample64File.Segments.length = sample64File.Header.Phnum ∧
    (sample64File.Segments.map Segment.Header)[0]?
      = some (programHeaderAt64 .LittleEndian sample64 (64 + 0 * 56)) := by
  have h := New_segments_decode64 sample64 [] sample64File (by decide) (by decide)
  refine ⟨h.1, ?_⟩
  obtain ⟨s, hs, hdec⟩ := h.2 0 (by decide)
  rw [List.getElem?_map, hs, Option.map_some', hdec]
  rfl

/-- C10: for a class-1 buffer the fields of `Segments[i].Header` are to be those
of the ELF32 program header record (Type, Offset, Vaddr, Paddr, Filesz, Memsz,
Flags, Align). On `sampleSegment32`, whose record at 52 holds `p_offset = 0`,
`p_vaddr = 0x10`, `p_paddr = 0x10`, `p_filesz = 0x20`, `p_memsz = 0x30` and
`p_flags = 5`, `New` returns a model whose segment header has `Flags = 0`,
`Offset = 0x10`, `Paddr = 0x20`, `Filesz = 0x30` and `Memsz = 5`: the struct
`programHeader32` declares `Flags` second, as the 64-bit record does. -/
theorem New_segment32_misreads_record :
    New sampleSegment32 [] = .ok sampleSegment32File ∧
    sampleSegment32File.Segments.map Segment.Header
      = [{ Type_ := 1, Flags := 0, Offset := 0x10, Vaddr := 0x10, Paddr := 0x20,
           Filesz := 0x30, Memsz := 5, Align := 4 }] ∧
    programHeaderAt32 .LittleEndian sampleSegment32 52
      = { Type_ := 1, Flags := 5, Offset := 0, Vaddr := 0x10, Paddr := 0x10,
          Filesz := 0x20, Memsz := 0x30, Align := 4 } := by
  decide

/-- C11: a section whose name position, the string table offset plus its `Name`
added as natural numbers, is at or past the end of the buffer is to make `New`
return the error "invalid section string index". On `sampleNameWrap` the one
section has `Offset = 2^64 - 1` and `Name = 1`, so the position is `2^64`: the
`uint64` sum of line 185 wraps to 0, passes the check of line 186, and `New` ends in
the out-of-range panic of the slice expression of line 195 instead of the error. -/
theorem New_name_index_wraps :
    (sectionHeaderAt64 .LittleEndian sampleNameWrap 64).Offset
      + (sectionHeaderAt64 .LittleEndian sampleNameWrap 64).Name = 2 ^ 64 ∧
    New sampleNameWrap []
      = .panic (.sliceBoundsOutOfRange (2 ^ 64 - 1) (2 ^ 64 - 1) 128) := by
  decide

/-- C12: whenever `New` returns a model (for a buffer whose capacity is a Go `int`),
for every section `s` of the table, with `p` the file offset of the section at index
`Shstrndx` plus the `Name` field of `s`, `s.Name` is exactly the bytes `raw[p .. q)`
where `q` is the least position `>= p` holding a zero byte: the name contains no
zero byte, `raw[p + len(Name)]` is 0, and the name is empty exactly when `raw[p]`
is 0. -/
theorem New_section_names (raw spare : List Byte) (f : ELFFile)
    (h : New raw spare = .ok f) (hcap : raw.length + spare.length < 2 ^ 63) :
    ∀ (i : Nat) (s : Section), f.Sections[i]? = some s →
      ∃ strsec, f.Sections[f.Header.Shstrndx]? = some strsec ∧
        ∃ q, strsec.Header.Offset + s.Header.Name ≤ q ∧ raw[q]? = some 0 ∧
          (∀ k, strsec.Header.Offset + s.Header.Name ≤ k → k < q → raw[k]? ≠ some 0) ∧
          s.Name = (raw.drop (strsec.Header.Offset + s.Header.Name)).take
            (q - (strsec.Header.Offset + s.Header.Name)) ∧
          (∀ b ∈ s.Name, b ≠ 0) ∧
          raw[strsec.Header.Offset + s.Header.Name + s.Name.length]? = some 0 ∧
          (s.Name = [] ↔ raw[strsec.Header.Offset + s.Header.Name]? = some 0) := by
  intro i s hi
  have hs : s ∈ f.Sections := List.getElem?_mem hi
  rcases New_sections_bound h with hnil | ⟨strsec, hstr, hb⟩
  · rw [hnil] at hs; cases hs
  · refine ⟨strsec, hstr, ?_⟩
    have hstrmem : strsec ∈ f.Sections := List.getElem?_mem hstr
    obtain ⟨-, -, -, ho1, ho2, -⟩ := hb strsec hstrmem
    obtain ⟨hname, hp, ⟨q, hq1, hq2, hq3, hq4, hq5⟩, -⟩ := hb s hs
    have hmod : (strsec.Header.Offset + s.Header.Name) % 2 ^ 64
        = strsec.Header.Offset + s.Header.Name := Nat.mod_eq_of_lt (by omega)
    rw [hmod] at hp hq1 hq4 hq5
    generalize strsec.Header.Offset + s.Header.Name = p at hp hq1 hq4 hq5 ⊢
    have hlen : s.Name.length = q - p := by
      rw [hq5, List.length_take, List.length_drop]; omega
    refine ⟨q, hq1, hq3, hq4, hq5, ?_, ?_, ?_⟩
    · intro b hbmem
      rw [hq5] at hbmem
      obtain ⟨j, hj, hbj⟩ := List.getElem_of_mem hbmem
      rw [List.getElem_take, List.getElem_drop] at hbj
      rw [List.length_take, List.length_drop] at hj
      have hne := hq4 (p + j) (by omega) (by omega)
      rw [List.getElem?_eq_getElem (by omega), hbj] at hne
      intro hb0; exact hne (by rw [hb0])
    · rw [hlen, show p + (q - p) = q by omega]; exact hq3
    · constructor
      · intro hnil
        have : q = p := by
          rw [hnil] at hlen; simp at hlen; omega
        rw [← this]; exact hq3
      · intro hz
        have : q = p := by
          by_contra hne
          exact hq4 p (le_refl p) (by omega) hz
        rw [hq5, this]; simp

theorem New_section_names_witness :
    ∃ s, sample64File.Sections[1]? = some s ∧ (∀ b ∈ s.Name, b ≠ 0) ∧
      sample64[248 + s.Header.Name + s.Name.length]? = some 0 ∧
      (s.Name = [] ↔ sample64[248 + s.Header.Name]? = some 0) := by
  obtain ⟨strsec, hstr, q, -, -, -, -, hnz, hz, hempty⟩ :=
    New_section_names sample64 [] sample64File (by decide) (by decide) 1 _ rfl
  have hoff : strsec.Header.Offset = 248 := by
    have hsec : sample64File.Sections[sample64File.Header.Shstrndx]?
        = some { Header := { Name := 1, Type_ := 3, Flags := 0, Addr := 0, Offset := 248,
                             Size := 11, Link := 0, Info := 0, Addralign := 1, EntSize := 0 }
                 Name := [0x2E, 0x73, 0x68, 0x73, 0x74, 0x72, 0x74, 0x61, 0x62]
                 Raw := [0, 0x2E, 0x73, 0x68, 0x73, 0x74, 0x72, 0x74, 0x61, 0x62, 0] } := rfl
    rw [hsec] at hstr
    rw [← Option.some.inj hstr]
  rw [hoff] at hz hempty
  exact ⟨_, rfl, hnz, hz, hempty⟩

/-- C13: the content view of every section and segment of a model is to lie inside
the buffer, `Offset + Size <= len` and `Offset + Filesz <= len`. On
`sampleSegmentInSpare`, 120 bytes long, handed over with one more byte `AA` of
capacity behind it, `New` returns a model whose segment has `Offset = 0`,
`Filesz = 121` and a view of 121 bytes that ends in the byte past the buffer: the
slice expression of line 233 is checked against the capacity, not the length. -/
theorem New_segment_view_past_length :
    New sampleSegmentInSpare [0xAA] = .ok sampleSegmentInSpareFile ∧
    sampleSegmentInSpare.length = 120 ∧
    sampleSegmentInSpareFile.Segments.map
        (fun sg => (sg.Header.Offset, sg.Header.Filesz, sg.Raw.length, sg.Raw.getLast?))
      = [(0, 121, 121, some 0xAA)] := by
  decide

/-- C14, as stated, fails: `New` returns a model of `sampleBss` in which the section
at index 1 has type NOBITS, a declared `Size` of 8 and a `Raw` view of 8 bytes, not
an empty one. -/
theorem New_nobits_view_not_empty :
    ∃ s, New sampleBss [] = .ok sampleBssFile ∧ sampleBssFile.Sections[1]? = some s ∧
      s.Header.Type_ = SHT_NOBITS ∧ s.Header.Size = 8 ∧ s.Raw.length = 8 ∧ s.Raw ≠ [] :=
  ⟨_, by decide, rfl, by decide, by decide, by decide, by decide⟩

/-- C14, amended: whenever `New` returns a model, every section whose type is NOBITS
(8) is bound like any other section: its `Raw` view is the `Size` bytes from
`Offset` on, `len(Raw) = Size`, and the view is empty exactly when the declared
`Size` is 0. -/
theorem New_nobits_bound_like_others (raw spare : List Byte) (f : ELFFile)
    (h : New raw spare = .ok f) :
    ∀ s ∈ f.Sections, s.Header.Type_ = SHT_NOBITS →
      s.Raw = ((raw ++ spare).drop s.Header.Offset).take s.Header.Size ∧
      s.Raw.length = s.Header.Size ∧
      (s.Raw = [] ↔ s.Header.Size = 0) := by
  intro s hs _
  obtain ⟨-, -, hraw, hlen⟩ := New_section_content h s hs
  refine ⟨hraw, hlen, ?_⟩
  rw [← hlen]
  exact List.length_eq_zero.symm

theorem New_nobits_bound_like_others_witness :
    (sampleBssFile.Sections.get ⟨1, by decide⟩).Raw
        = ((sampleBss ++ []).drop 256).take 8 ∧
      (sampleBssFile.Sections.get ⟨1, by decide⟩).Raw.length = 8 ∧
      ((sampleBssFile.Sections.get ⟨1, by decide⟩).Raw = [] ↔ 8 = 0) :=
  New_nobits_bound_like_others sampleBss [] sampleBssFile (by decide)
    (sampleBssFile.Sections.get ⟨1, by decide⟩) (by decide) (by decide)

/-- C15: a section whose `Offset + Size` exceeds the buffer is to make `New` return
an error (invalid section range). On `sampleSectionOverrun`, whose one section has
`Offset = 0` and `Size = 0x1000` in a buffer of 128 bytes, no check precedes the
slice expression of line 195: `New` stops with an out-of-range panic, it returns
neither an error nor a model. -/
theorem New_panics_on_section_overrun :
    New sampleSectionOverrun [] = .panic (.sliceBoundsOutOfRange 0 4096 128) := by
  decide

/-- C16: for every model and every name, `SectionByName(name)` returns a section
whose `Name` equals `name` if and only if some section of the table has that name,
and returns nil otherwise; the section returned is the one with the least table
index among those with that name. In particular `SectionByName(Sections[i].Name)`
is never nil. -/
theorem SectionByName_first_match (e : ELFFile) (name : List Byte) :
    ((∃ s, e.SectionByName name = some s ∧ s.Name = name) ↔
        ∃ s ∈ e.Sections, s.Name = name) ∧
    ((¬ ∃ s ∈ e.Sections, s.Name = name) → e.SectionByName name = none) ∧
    (∀ s, e.SectionByName name = some s →
        ∃ i : Nat, e.Sections[i]? = some s ∧ s.Name = name ∧
          ∀ j : Nat, j < i → ∀ t : Section, e.Sections[j]? = some t → t.Name ≠ name) ∧
    (∀ (i : Nat) (s : Section), e.Sections[i]? = some s →
        ∃ t, e.SectionByName s.Name = some t ∧ t.Name = s.Name) := by
  have hsome : ∀ nm : List Byte, (∃ s ∈ e.Sections, s.Name = nm) →
      ∃ t, e.SectionByName nm = some t ∧ t.Name = nm := by
    intro nm ⟨s, hs, hn⟩
    cases hres : e.SectionByName nm with
    | none => exact absurd hn (SectionByName_loop_none hres s hs)
    | some t =>
      obtain ⟨i, -, ht, -⟩ := SectionByName_loop_some hres
      exact ⟨t, rfl, ht⟩
  refine ⟨⟨?_, hsome name⟩, ?_, ?_, ?_⟩
  · rintro ⟨s, hs, hn⟩
    obtain ⟨i, hi, -, -⟩ := SectionByName_loop_some hs
    exact ⟨s, List.getElem?_mem hi, hn⟩
  · intro hnone
    cases hres : e.SectionByName name with
    | none => rfl
    | some t =>
      obtain ⟨i, hi, ht, -⟩ := SectionByName_loop_some hres
      exact absurd ⟨t, List.getElem?_mem hi, ht⟩ hnone
  · intro s hs
    exact SectionByName_loop_some hs
  · intro i s hi
    exact hsome s.Name ⟨s, List.getElem?_mem hi, rfl⟩

theorem SectionByName_first_match_witness :
    ∃ t, sample64File.SectionByName [0x2E, 0x73, 0x68, 0x73, 0x74, 0x72, 0x74, 0x61, 0x62]
        = some t ∧ t.Name = [0x2E, 0x73, 0x68, 0x73, 0x74, 0x72, 0x74, 0x61, 0x62] :=
  (SectionByName_first_match sample64File
    [0x2E, 0x73, 0x68, 0x73, 0x74, 0x72, 0x74, 0x61, 0x62]).1.2
    ⟨_, List.getElem?_mem (show sample64File.Sections[1]? = some _ from rfl), rfl⟩

/-- C17: for every model, `SectionsByType(t)`, `SectionsByFlag(f)`,
`SegmentsByType(t)` and `SegmentsByFlag(f)` return exactly the entries of the table
whose `Header.Type` (resp. `Header.Flags`) equals the argument, in table order, and
the empty result when nothing matches. Flags are compared as a whole value: a
section whose flags are `SHF_ALLOC|SHF_EXECINSTR` (0x6) is not in
`SectionsByFlag(SHF_ALLOC)`. -/
theorem lookups_by_type_and_flag (e : ELFFile) (t flag : Nat) :
    e.SectionsByType t = e.Sections.filter (fun s => decide (s.Header.Type_ = t)) ∧
    e.SectionsByFlag flag = e.Sections.filter (fun s => decide (s.Header.Flags = flag)) ∧
    e.SegmentsByType t = e.Segments.filter (fun sg => decide (sg.Header.Type_ = t)) ∧
    e.SegmentsByFlag flag = e.Segments.filter (fun sg => decide (sg.Header.Flags = flag)) ∧
    ((∀ s ∈ e.Sections, s.Header.Type_ ≠ t) → e.SectionsByType t = []) ∧
    ((∀ s ∈ e.Sections, s.Header.Flags ≠ flag) → e.SectionsByFlag flag = []) ∧
    ((∀ sg ∈ e.Segments, sg.Header.Type_ ≠ t) → e.SegmentsByType t = []) ∧
    ((∀ sg ∈ e.Segments, sg.Header.Flags ≠ flag) → e.SegmentsByFlag flag = []) ∧
    (SHF_ALLOC ||| SHF_EXECINSTR = 0x6 ∧
      ∀ s ∈ e.Sections, s.Header.Flags = 0x6 → s ∉ e.SectionsByFlag SHF_ALLOC) := by
  have h1 : ∀ u, e.SectionsByType u = e.Sections.filter (fun s => decide (s.Header.Type_ = u)) := by
    intro u
    unfold ELFFile.SectionsByType
    rw [foldl_append_eq_filter (fun s : Section => s.Header.Type_ = u)]; rfl
  have h2 : ∀ u, e.SectionsByFlag u = e.Sections.filter (fun s => decide (s.Header.Flags = u)) := by
    intro u
    unfold ELFFile.SectionsByFlag
    rw [foldl_append_eq_filter (fun s : Section => s.Header.Flags = u)]; rfl
  have h3 : e.SegmentsByType t = e.Segments.filter (fun sg => decide (sg.Header.Type_ = t)) := by
    unfold ELFFile.SegmentsByType
    rw [foldl_append_eq_filter (fun sg : Segment => sg.Header.Type_ = t)]; rfl
  have h4 : e.SegmentsByFlag flag = e.Segments.filter (fun sg => decide (sg.Header.Flags = flag)) := by
    unfold ELFFile.SegmentsByFlag
    rw [foldl_append_eq_filter (fun sg : Segment => sg.Header.Flags = flag)]; rfl
  refine ⟨h1 t, h2 flag, h3, h4, ?_, ?_, ?_, ?_, by decide, ?_⟩
  · intro hno
    rw [h1, List.filter_eq_nil_iff]
    intro s hs; simpa using hno s hs
  · intro hno
    rw [h2, List.filter_eq_nil_iff]
    intro s hs; simpa using hno s hs
  · intro hno
    rw [h3, List.filter_eq_nil_iff]
    intro s hs; simpa using hno s hs
  · intro hno
    rw [h4, List.filter_eq_nil_iff]
    intro s hs; simpa using hno s hs
  · intro s _ hflags hmem
    rw [h2, List.mem_filter] at hmem
    have := hmem.2
    simp [hflags, SHF_ALLOC] at this

theorem lookups_by_type_and_flag_witness :
    sample64File.SectionsByType 3 = sample64File.Sections.filter
      (fun s => decide (s.Header.Type_ = 3)) ∧
    sample64File.SegmentsByFlag 7 = [] :=
  ⟨(lookups_by_type_and_flag sample64File 3 7).1,
   (lookups_by_type_and_flag sample64File 3 7).2.2.2.2.2.2.2.1 (by decide)⟩

/-- C18: `SectionAt(n)` and `SegmentAt(n)` are to return nil for every
`n >= len`, `n == len` included, as `TestSectionAt` and `TestSegmentAt` expect. On
the model of `sample64`, with 2 sections and 1 segment, the guards
`n > uint16(len(ss))` of lines 283 and 317 let `n == len` through and the index
expressions `ss[2]` and `sgs[1]` panic. -/
theorem SectionAt_panics_at_length :
    New sample64 [] = .ok sample64File ∧
    sample64File.Sections.length = 2 ∧
    sample64File.SectionAt 2 = .panic (.indexOutOfRange 2 2) ∧
    sample64File.Segments.length = 1 ∧
    sample64File.SegmentAt 1 = .panic (.indexOutOfRange 1 1) := by
  decide

/-- C19: for every model built by `New` and every `n < len(Sections)`,
`SectionAt(n)` returns the `n`-th entry of `Sections`; and for every
`n < len(Segments)`, `SegmentAt(n)` returns the `n`-th entry of `Segments`. -/
theorem At_returns_entry (raw spare : List Byte) (f : ELFFile) (h : New raw spare = .ok f) :
    (∀ n : Nat, n < f.Sections.length →
        ∃ s, f.Sections[n]? = some s ∧ f.SectionAt n = .ok (some s)) ∧
    (∀ n : Nat, n < f.Segments.length →
        ∃ sg, f.Segments[n]? = some sg ∧ f.SegmentAt n = .ok (some sg)) := by
  obtain ⟨hsh, hph⟩ := New_Shnum_lt h
  have hs := New_sections_length h
  have hg := New_segments_length h
  constructor
  · intro n hn
    refine ⟨f.Sections[n], List.getElem?_eq_getElem hn, ?_⟩
    unfold ELFFile.SectionAt
    rw [if_neg (by rw [Nat.mod_eq_of_lt (by omega)]; omega), List.getElem?_eq_getElem hn]
  · intro n hn
    refine ⟨f.Segments[n], List.getElem?_eq_getElem hn, ?_⟩
    unfold ELFFile.SegmentAt
    rw [if_neg (by rw [Nat.mod_eq_of_lt (by omega)]; omega), List.getElem?_eq_getElem hn]

theorem At_returns_entry_witness :
    (∃ s, sample64File.Sections[1]? = some s ∧ sample64File.SectionAt 1 = .ok (some s)) ∧
    (∃ sg, sample64File.Segments[0]? = some sg ∧ sample64File.SegmentAt 0 = .ok (some sg)) :=
  ⟨(At_returns_entry sample64 [] sample64File (by decide)).1 1 (by decide),
   (At_returns_entry sample64 [] sample64File (by decide)).2 0 (by decide)⟩

/-- C20, as stated, fails: `New` returns a model of `sampleFirstProgbits` whose
section sequence is not empty and whose entry at index 0 has type PROGBITS (1),
not `SHT_NULL`. -/
theorem New_first_section_not_null :
    ∃ s, New sampleFirstProgbits [] = .ok sampleFirstProgbitsFile ∧
      sampleFirstProgbitsFile.Sections ≠ [] ∧
      sampleFirstProgbitsFile.Sections[0]? = some s ∧ s.Header.Type_ ≠ SHT_NULL :=
  ⟨_, by decide, by decide, rfl, by decide⟩

/-- C20, amended: for every model `New` returns whose section sequence is not
empty, the entry at index 0 is the first record of the section header table as it
stands in the buffer: its `Type` is the 4-byte value stored at `Shoff + 4`, and is
`SHT_NULL` (0) exactly when that value is 0. -/
theorem New_first_section_is_first_record (raw spare : List Byte) (f : ELFFile)
    (h : New raw spare = .ok f) (hne : f.Sections ≠ []) :
    ∃ s, f.Sections[0]? = some s ∧
      s.Header.Type_ = uintAt f.Endianness raw (f.Header.Shoff + 4) 4 ∧
      (s.Header.Type_ = SHT_NULL ↔ uintAt f.Endianness raw (f.Header.Shoff + 4) 4 = 0) := by
  obtain ⟨s, hs, hhdr⟩ := New_section_header_at h 0 (List.length_pos.2 hne)
  have htype : s.Header.Type_ = uintAt f.Endianness raw (f.Header.Shoff + 4) 4 := by
    rw [hhdr]
    split_ifs <;> simp [sectionHeaderAt32, sectionHeaderAt64]
  exact ⟨s, hs, htype, by rw [htype]; rfl⟩

theorem New_first_section_is_first_record_witness :
    ∃ s, sampleFirstProgbitsFile.Sections[0]? = some s ∧
      s.Header.Type_ = uintAt sampleFirstProgbitsFile.Endianness sampleFirstProgbits
        (sampleFirstProgbitsFile.Header.Shoff + 4) 4 ∧
      (s.Header.Type_ = SHT_NULL ↔
        uintAt sampleFirstProgbitsFile.Endianness sampleFirstProgbits
          (sampleFirstProgbitsFile.Header.Shoff + 4) 4 = 0) :=
  New_first_section_is_first_record sampleFirstProgbits [] sampleFirstProgbitsFile
    (by decide) (by decide)

/-- C21: there is a buffer with valid identification, a complete header and
decodable section records, in which the name start position of a section (string
table offset plus `Name`, here 128) lies inside the buffer and no zero byte occurs
from that position to the end of the buffer, on which the terminator scan of lines
190-192 indexes past the end: `New` stops with an index-out-of-range panic instead
of returning an error. The buffer is `sampleUnterminatedName`. -/
theorem New_scan_runs_off_the_end :
    ∃ raw : List Byte,
      ValidIdent raw 2 .LittleEndian ∧ headerSize 2 ≤ raw.length ∧
      (headerAt 2 .LittleEndian raw).Shnum = 1 ∧ (headerAt 2 .LittleEndian raw).Shstrndx = 0 ∧
      readSectionHeaders (raw.drop (headerAt 2 .LittleEndian raw).Shoff) .LittleEndian
          (headerAt 2 .LittleEndian raw)
        = .ok [sectionHeaderAt64 .LittleEndian raw (headerAt 2 .LittleEndian raw).Shoff] ∧
      (sectionHeaderAt64 .LittleEndian raw (headerAt 2 .LittleEndian raw).Shoff).Offset
        + (sectionHeaderAt64 .LittleEndian raw (headerAt 2 .LittleEndian raw).Shoff).Name
        = 128 ∧
      128 < raw.length ∧
      (∀ b ∈ raw.drop 128, b ≠ 0) ∧
      New raw [] = .panic (.indexOutOfRange raw.length raw.length) :=
  ⟨sampleUnterminatedName, ⟨by decide, by decide, Or.inr rfl, by decide⟩, by decide, by decide,
    by decide, by decide, by decide, by decide, by decide, by decide⟩

/-- C22: whenever `New` returns a model with `Shnum` not 0, `Header.Shstrndx` is
less than `Header.Shnum` and designates an entry of `Sections`; and a buffer with
valid identification and a complete header whose `Shstrndx` is `>= Shnum`, with
`Shnum` not 0, is never accepted as a model: `New` ends in an error or in a panic. -/
theorem New_Shstrndx_in_table (raw spare : List Byte) :
    (∀ f, New raw spare = .ok f → f.Header.Shnum ≠ 0 →
      f.Header.Shstrndx < f.Header.Shnum ∧ ∃ s, f.Sections[f.Header.Shstrndx]? = some s) ∧
    (∀ (cls : Byte) (order : ByteOrder), ValidIdent raw cls order →
      headerSize cls ≤ raw.length →
      (headerAt cls order raw).Shnum ≠ 0 →
      (headerAt cls order raw).Shnum ≤ (headerAt cls order raw).Shstrndx →
      (∃ e, New raw spare = .error e) ∨ (∃ p, New raw spare = .panic p)) := by
  refine ⟨fun f h hne => New_Shstrndx_lt h hne, ?_⟩
  intro cls order hid hlen hne hge
  cases hres : New raw spare with
  | ok f =>
    have hhdr := New_Header_of_valid hid hlen hres
    have hlt := (New_Shstrndx_lt hres (by rw [hhdr]; exact hne)).1
    rw [hhdr] at hlt
    omega
  | error e => exact Or.inl ⟨e, rfl⟩
  | panic p => exact Or.inr ⟨p, rfl⟩

theorem New_Shstrndx_in_table_witness :
    (sample64File.Header.Shstrndx < sample64File.Header.Shnum ∧
      ∃ s, sample64File.Sections[sample64File.Header.Shstrndx]? = some s) ∧
    ((∃ e, New sampleStrndxOut [] = .error e) ∨ (∃ p, New sampleStrndxOut [] = .panic p)) :=
  ⟨(New_Shstrndx_in_table sample64 []).1 sample64File (by decide) (by decide),
   (New_Shstrndx_in_table sampleStrndxOut []).2 2 .LittleEndian
     ⟨by decide, by decide, Or.inr rfl, by decide⟩ (by decide) (by decide) (by decide)⟩

end Elf
